import Mathlib

set_option allowUnsafeReducibility true

attribute [local semireducible] Rat.mul Rat.add Rat.sub Rat.neg Rat.div Rat.inv Rat.ofScientific

/-!
Verification of the transaction-replay portfolio valuation engine.

This file gives a shallow embedding, in Lean, of the valuation code of the
repository (`build_real_portfolio.py`, `fetch_portfolio_data.py`,
`data_manager.py`, and the allocation filter of `app.py`) and proves or
refutes the stated properties of that code.

Modelling conventions:
* calendar dates are integers (a day number); date arithmetic such as
  "minus 30 days" or "minus 7 days" is integer subtraction;
* Python floats are modelled as rationals (`ℚ`), so sums and divisions are
  exact; `x / 0 = 0` in `ℚ` (the code never divides by zero on the paths
  proved here);
* pandas Series/DataFrames are modelled as lists of typed records kept in
  their construction order; `sort_values` is a merge sort on the same keys;
* Python dicts used as accumulators are association lists in insertion
  order, matching dict iteration order;
* the `try`/`except` around the per-point market lookup in
  `build_portfolio_data` is modelled by an explicit oracle
  `err : ℤ → String → Bool` marking the (date, symbol) points at which the
  external-data access raises; a raised point takes the `except: continue`
  path.
-/

namespace Portfolio

/-- One ledger row of `transactions.py`: the 5-tuple
`(date, symbol, quantity, price, currency)`. -/
structure Tx where
  date : ℤ
  symbol : String
  quantity : ℚ
  price : ℚ
  currency : String
deriving DecidableEq, Repr

/-- A price or FX series: date-indexed closing values, one pair per entry,
as returned by the market-data source (`historical_data[symbol]`). -/
abbrev Series := List (ℤ × ℚ)

/-- The nearest-prior-date lookup inlined in `build_portfolio_data`
(`build_real_portfolio.py` lines 330-334):
`available_dates = symbol_prices.index[symbol_prices.index <= date]`,
then `symbol_prices[available_dates[-1]]` when non-empty.  Taking the last
pair of the filtered list is taking the value at the last filtered index. -/
def latestLE (series : Series) (d : ℤ) : Option ℚ :=
  ((series.filter (fun e => decide (e.1 ≤ d))).getLast?).map (fun e => e.2)

/-- `PortfolioCalculator.get_price_on_date` (`fetch_portfolio_data.py`
lines 91-123).  `priceData sym` is the full history the external source
holds for `sym`; the function fetches only the window
`start = date - 7 days` to `end = date + 1 day` (exclusive), i.e. entries
with `d - 7 ≤ t ≤ d`.  On an empty window it returns `None`; otherwise it
takes the last entry dated `≤ d`, falling back to the first fetched entry
when no such entry exists (`if pd.isna(closest_date): closest_date =
data.index[0]`). -/
def get_price_on_date (priceData : String → Series) (symbol : String) (d : ℤ) : Option ℚ :=
  match (priceData symbol).filter (fun e => decide (d - 7 ≤ e.1) && decide (e.1 ≤ d)) with
  | [] => none
  | e₀ :: rest =>
    match ((e₀ :: rest).filter (fun e => decide (e.1 ≤ d))).getLast? with
    | some e => some e.2
    | none => some e₀.2

/-- The per-transaction increment applied by the holdings loops of
`build_real_portfolio.py` (lines 135-143 and 283-287): the spec's
`quantity_or_amount` field.  For the pooled-fund symbol `KRON_GLOBAL` the
code accumulates the invested amount, which the 5-tuple ledger stores in
the `price` slot (`date_total_invested[symbol] += price`); for every other
symbol it accumulates the `quantity` slot.  The two dicts
(`date_holdings`, `date_total_invested`) stay equal for `KRON_GLOBAL`, so
the pair of updates is a single addition. -/
def quantity_or_amount (t : Tx) : ℚ :=
  if t.symbol = "KRON_GLOBAL" then t.price else t.quantity

/-- Insertion-ordered dict update: add `x` to the entry of key `s`,
initialising it to `0` (then adding) when absent, as the Python
`if symbol not in holdings: holdings[symbol] = 0` / `holdings[symbol] += x`
pair does. -/
def updateAssoc : List (String × ℚ) → String → ℚ → List (String × ℚ)
  | [], s, x => [(s, x)]
  | e :: rest, s, x =>
    if e.1 = s then (e.1, e.2 + x) :: rest else e :: updateAssoc rest s x

/-- Holdings as of a date (`build_real_portfolio.py` lines 271-287): filter
the ledger to transactions dated `≤ d`, then accumulate
`quantity_or_amount` per symbol in first-appearance order. -/
def dateHoldings (txs : List Tx) (d : ℤ) : List (String × ℚ) :=
  (txs.filter (fun t => decide (t.date ≤ d))).foldl
    (fun acc t => updateAssoc acc t.symbol (quantity_or_amount t)) []

/-- Dict read with default `0`, as `date_holdings.get(symbol, 0)`. -/
def holdingsLookup (h : List (String × ℚ)) (s : String) : ℚ :=
  ((h.find? (fun e => decide (e.1 = s))).map (fun e => e.2)).getD 0

/-- The constant `pd.to_datetime('2025-07-06')` of
`build_real_portfolio.py` line 309, in the day-number encoding of dates
(the exact numeral is immaterial to every property proved here). -/
def cs_knife_date : ℤ := 20275

/-- Value in NOK of one holding on one date, `build_real_portfolio.py`
lines 297-365.  `hist` is the `historical_data` dict (`none` = key
absent), `err d s` marks the (date, symbol) points at which the market
lookup inside the `try` of lines 325-361 raises (the `except` path is
`continue`, i.e. `none`).  Branch order follows the source: fixed-value
assets (`BSU`, `CS_KNIFE`), then the pooled fund `KRON_GLOBAL` at book
value, then market-priced symbols present in `historical_data` with
nearest-prior price and nearest-prior USD/NOK rate (fallback `10.24`,
`KOG` exempt from conversion), else skip. -/
def valueFor (hist : String → Option Series) (err : ℤ → String → Bool)
    (d : ℤ) (s : String) (q : ℚ) : Option ℚ :=
  if s = "BSU" then some (q * 27500)
  else if s = "CS_KNIFE" then
    (if cs_knife_date ≤ d then some 15000 else none)
  else if s = "KRON_GLOBAL" then some q
  else
    match hist s with
    | none => none
    | some series =>
      if err d s then none
      else
        match latestLE series d with
        | none => none
        | some price =>
          let rate :=
            match hist "USDNOK" with
            | none => (10.24 : ℚ)
            | some fx =>
              match latestLE fx d with
              | none => (10.24 : ℚ)
              | some r => r
          if s = "KOG" then some (q * price) else some (q * price * rate)

/-- One row of the output table: `{Date, Instrument, Quantity, Value_kNOK}`. -/
structure Record where
  date : ℤ
  instrument : String
  quantity : ℚ
  value : ℚ
deriving DecidableEq, Repr

/-- Rows appended for one date of the range (`build_real_portfolio.py`
lines 298-372): for each held symbol in dict order, skip non-positive
holdings, value the holding, skip when no value resolves, otherwise append
`{Date, Instrument, Quantity, Value_kNOK = value_nok / 1000}`. -/
def recordsForDate (txs : List Tx) (hist : String → Option Series)
    (err : ℤ → String → Bool) (d : ℤ) : List Record :=
  (dateHoldings txs d).filterMap (fun e =>
    if e.2 ≤ 0 then none
    else (valueFor hist err d e.1 e.2).map (fun v => ⟨d, e.1, e.2, v / 1000⟩))

/-- First-occurrence deduplication with an accumulator of already-seen
values. -/
def firstUniquesAux : List ℤ → List ℤ → List ℤ
  | _, [] => []
  | seen, d :: ds =>
    if d ∈ seen then firstUniquesAux seen ds
    else d :: firstUniquesAux (d :: seen) ds

/-- First-occurrence deduplication, as `df['Date'].unique()`. -/
def firstUniques (l : List ℤ) : List ℤ :=
  firstUniquesAux [] l

/-- Sum of `Value_kNOK` over the rows of one date,
`date_data['Value_kNOK'].sum()`. -/
def sumValuesAt (rs : List Record) (d : ℤ) : ℚ :=
  ((rs.filter (fun r => decide (r.date = d))).map Record.value).sum

/-- The `TOTAL` rows (`build_real_portfolio.py` lines 387-397): one per
unique date of the instrument rows, with `Quantity = 1` and value the sum
of that date's rows. -/
def totalsFor (rs : List Record) : List Record :=
  (firstUniques (rs.map Record.date)).map (fun d => ⟨d, "TOTAL", 1, sumValuesAt rs d⟩)

/-- Lexicographic order on character lists by code point — the string
order pandas uses when sorting an `Instrument` column. -/
def lexLE : List Char → List Char → Bool
  | [], _ => true
  | _ :: _, [] => false
  | a :: as, b :: bs =>
    if a.toNat < b.toNat then true
    else if b.toNat < a.toNat then false
    else lexLE as bs

/-- Code-point order on strings. -/
def strLE (a b : String) : Bool :=
  lexLE a.data b.data

/-- Sort key of `df_final.sort_values(['Date', 'Instrument'])`: ascending
by date, then by instrument name. -/
def recLE (a b : Record) : Prop :=
  a.date < b.date ∨ (a.date = b.date ∧ strLE a.instrument b.instrument = true)

instance : DecidableRel recLE := fun a b =>
  inferInstanceAs
    (Decidable (a.date < b.date ∨ (a.date = b.date ∧ strLE a.instrument b.instrument = true)))

/-- `sort_values(['Date', 'Instrument'])` as a sort on the same keys. -/
def sortRecords (rs : List Record) : List Record :=
  rs.insertionSort recLE

/-- The inclusive daily range `pd.date_range(start, end, freq='D')`
(empty when `today < start`). -/
def dateRange (start today : ℤ) : List ℤ :=
  (List.range (today + 1 - start).toNat).map (fun i : ℕ => start + (i : ℤ))

/-- The engine's date range (`build_real_portfolio.py` lines 233-239):
from 30 days before the earliest transaction
(`min(transaction_dates) - timedelta(days=30)`) to the run date `today`;
empty for an empty ledger (where the source's `min([])` raises). -/
def engineDates (txs : List Tx) (today : ℤ) : List ℤ :=
  match txs with
  | [] => []
  | t :: ts => dateRange (ts.foldl (fun m t' => min m t'.date) t.date - 30) today

/-- All instrument rows of the run: each date of the range contributes its
`recordsForDate` rows, in date order (`portfolio_data` after the loop of
lines 271-377). -/
def engineRecords (txs : List Tx) (hist : String → Option Series)
    (err : ℤ → String → Bool) (today : ℤ) : List Record :=
  (engineDates txs today).flatMap (recordsForDate txs hist err)

/-- `build_portfolio_data` (`build_real_portfolio.py` lines 147-406)
restricted to its pure valuation core: when any instrument rows exist the
`TOTAL` rows are appended and the result is sorted by (Date, Instrument),
otherwise the empty table is returned.  On an empty ledger `min([])`
raises `ValueError`, modelled as `none`. -/
def build_portfolio_data (txs : List Tx) (hist : String → Option Series)
    (err : ℤ → String → Bool) (today : ℤ) : Option (List Record) :=
  match txs with
  | [] => none
  | _ :: _ =>
    if (engineRecords txs hist err today).isEmpty then some []
    else
      some (sortRecords (engineRecords txs hist err today ++
        totalsFor (engineRecords txs hist err today)))

/-- `SYMBOL_MAPPING.get(instrument)` of `fetch_portfolio_data.py` lines
53-62: `None` both for the pooled fund (mapped to `None` in the dict) and
for instruments absent from the dict. -/
def symbolMapping (instrument : String) : Option String :=
  if instrument = "Kron Indeks Global" then none
  else if instrument = "AMD" then some "AMD"
  else if instrument = "APPLE" then some "AAPL"
  else if instrument = "GOOGLE" then some "GOOG"
  else if instrument = "ROBINHOOD" then some "HOOD"
  else if instrument = "KOG" then some "KOG.OL"
  else if instrument = "BTC" then some "BTC-USD"
  else if instrument = "SOLANA" then some "SOL-USD"
  else none

/-- `instrument in CUSTOM_ASSETS` (`fetch_portfolio_data.py` lines 65-73). -/
def inCustomAssets (instrument : String) : Bool :=
  instrument == "Kron Indeks Global"

/-- One row of the fetch-script ledger `TRANSACTIONS`
(`fetch_portfolio_data.py` lines 19-50): `(date, instrument, amount_nok,
note)`. -/
structure FetchTx where
  date : ℤ
  instrument : String
  amount : ℚ
  note : String
deriving DecidableEq, Repr

/-- The `str.endswith(suffix)` test, on the underlying character lists. -/
def strEndsWith (s suffix : String) : Bool :=
  suffix.data.isSuffixOf s.data

/-- NOK price per share used by the fetch script (lines 137-141 and
171-174): symbols ending in `-USD`, and any symbol not ending in `.OL`,
are converted at the current USD/NOK rate; `.OL` symbols are already NOK. -/
def toNok (sym : String) (rate p : ℚ) : ℚ :=
  if strEndsWith sym "-USD" || !(strEndsWith sym ".OL") then p * rate else p

/-- `calculate_shares_purchased` (`fetch_portfolio_data.py` lines
125-144): custom assets are their amount verbatim; a missing purchase
price yields `(0, 0)`; otherwise shares = amount / NOK price. -/
def calculate_shares_purchased (priceData : String → Series) (rate : ℚ)
    (txDate : ℤ) (instrument : String) (amount : ℚ) : ℚ × ℚ :=
  match symbolMapping instrument with
  | none => (amount, amount)
  | some sym =>
    match get_price_on_date priceData sym txDate with
    | none => (0, 0)
    | some p =>
      let priceNok := toNok sym rate p
      (amount / priceNok, priceNok)

/-- `calculate_position_value` (`fetch_portfolio_data.py` lines 146-176).
For a configured custom asset the source evaluates
`config["appreciation_rate"]`, but `CUSTOM_ASSETS` defines
`estimated_annual_return` and no `appreciation_rate` key, so the subscript
raises `KeyError` before the appreciation formula is reached: that branch
is `Except.error ()`.  Unknown custom assets return their shares verbatim;
a missing market price returns `0`; otherwise shares × NOK price. -/
def calculate_position_value (priceData : String → Series) (rate : ℚ)
    (instrument : String) (shares : ℚ) (d : ℤ) : Except Unit ℚ :=
  match symbolMapping instrument with
  | none =>
    if inCustomAssets instrument then Except.error () else Except.ok shares
  | some sym =>
    match get_price_on_date priceData sym d with
    | none => Except.ok 0
    | some p => Except.ok (shares * toNok sym rate p)

/-- Round half to even at one decimal, as Python's `round(x, 1)` (modelled
exactly on rationals rather than on binary floats). -/
def pyRound1 (x : ℚ) : ℚ :=
  let y := x * 10
  let f := ⌊y⌋
  let r := y - f
  let n : ℤ :=
    if r < 1/2 then f
    else if 1/2 < r then f + 1
    else if f % 2 = 0 then f else f + 1
  (n : ℚ) / 10

instance {ε α : Type} [DecidableEq ε] [DecidableEq α] : DecidableEq (Except ε α) := fun x y =>
  match x, y with
  | .error e, .error e' =>
    if h : e = e' then isTrue (by rw [h]) else isFalse (fun hc => h (by injection hc))
  | .error _, .ok _ => isFalse (fun hc => Except.noConfusion hc)
  | .ok _, .error _ => isFalse (fun hc => Except.noConfusion hc)
  | .ok a, .ok a' =>
    if h : a = a' then isTrue (by rw [h]) else isFalse (fun hc => h (by injection hc))

/-- One processed transaction of `transaction_details`
(`fetch_portfolio_data.py` lines 188-206); only `Shares` feeds the daily
loop. -/
structure TxDetail where
  date : ℤ
  instrument : String
  shares : ℚ
deriving DecidableEq, Repr

/-- One output row of the fetch script: `{Date, Instrument, Value_kNOK}`. -/
structure FetchRecord where
  date : ℤ
  instrument : String
  value : ℚ
deriving DecidableEq, Repr

/-- Shares purchased per transaction (`fetch_portfolio_data.py` lines
188-206). -/
def fetchDetails (priceData : String → Series) (rate : ℚ)
    (txs : List FetchTx) : List TxDetail :=
  txs.map (fun t =>
    ⟨t.date, t.instrument, (calculate_shares_purchased priceData rate t.date t.instrument t.amount).1⟩)

/-- Holdings on a date in the fetch script (lines 218-227): transactions
dated `≤ d`, shares summed per instrument in insertion order. -/
def fetchHoldings (details : List TxDetail) (d : ℤ) : List (String × ℚ) :=
  (details.filter (fun t => decide (t.date ≤ d))).foldl
    (fun acc t => updateAssoc acc t.instrument t.shares) []

/-- Rows appended for one date by `build_portfolio_history` (lines
229-238): every holding is valued and recorded — `calculate_position_value`
returns `0` for a missing price, and its `KeyError` propagates. -/
def recordsForDateFetch (priceData : String → Series) (rate : ℚ)
    (details : List TxDetail) (d : ℤ) : Except Unit (List FetchRecord) :=
  (fetchHoldings details d).mapM (fun e =>
    (calculate_position_value priceData rate e.1 e.2 d).map
      (fun v => ⟨d, e.1, pyRound1 (v / 1000)⟩))

/-- `build_portfolio_history` (`fetch_portfolio_data.py` lines 178-240):
daily records over the argument range, concatenated in date order; any
uncaught exception from `calculate_position_value` aborts the whole
build. -/
def build_portfolio_history (priceData : String → Series) (rate : ℚ)
    (txs : List FetchTx) (startD endD : ℤ) : Except Unit (List FetchRecord) :=
  Except.map List.flatten
    ((dateRange startD endD).mapM
      (recordsForDateFetch priceData rate (fetchDetails priceData rate txs)))

/-- Sorted unique dates, as the keys of `groupby("Date")` (pandas sorts
group keys ascending). -/
def sortedUniqueDates (rs : List Record) : List ℤ :=
  ((rs.map Record.date).dedup).insertionSort (fun a b => a ≤ b)

/-- `df_without_total` (`data_manager.py` line 27). -/
def nonTotalRows (df : List Record) : List Record :=
  df.filter (fun r => decide (r.instrument ≠ "TOTAL"))

/-- `portfolio_over_time` (`data_manager.py` line 28): the non-TOTAL rows
grouped by date with `Value_kNOK` summed, one pair per date in ascending
date order. -/
def portfolioOverTime (df : List Record) : List (ℤ × ℚ) :=
  (sortedUniqueDates (nonTotalRows df)).map (fun d =>
    (d, (((nonTotalRows df).filter (fun r => decide (r.date = d))).map Record.value).sum))

/-- `get_portfolio_summary` (`data_manager.py` lines 19-38): on a
non-empty table, drop the `TOTAL` rows, sum `Value_kNOK` per date (sorted
by date), and with at least two dates report the last total, the absolute
change and the percent change (`0` when the first total is `0`).  Returns
`(end_value, absolute_change, percent_change, totals_over_time)`;
`iloc[0]` and `iloc[-1]` are `headD`/`getLastD` (the branch guarantees
non-emptiness). -/
def get_portfolio_summary (df : List Record) : ℚ × ℚ × ℚ × List (ℤ × ℚ) :=
  if df.isEmpty then (0, 0, 0, [])
  else if (portfolioOverTime df).length < 2 then (0, 0, 0, portfolioOverTime df)
  else
    (((portfolioOverTime df).getLastD (0, 0)).2,
     ((portfolioOverTime df).getLastD (0, 0)).2 - ((portfolioOverTime df).headD (0, 0)).2,
     if ((portfolioOverTime df).headD (0, 0)).2 ≠ 0 then
       (((portfolioOverTime df).getLastD (0, 0)).2 -
         ((portfolioOverTime df).headD (0, 0)).2) /
         ((portfolioOverTime df).headD (0, 0)).2 * 100
     else 0,
     portfolioOverTime df)

/-- Third component of the summary: `percent_change`. -/
def summaryPercentChange (df : List Record) : ℚ :=
  (get_portfolio_summary df).2.2.1

/-- Fourth component of the summary: `portfolio_over_time`. -/
def summaryTotalsOverTime (df : List Record) : List (ℤ × ℚ) :=
  (get_portfolio_summary df).2.2.2

/-- Ascending-date order on records. -/
def dateLE (a b : Record) : Prop :=
  a.date ≤ b.date

instance : DecidableRel dateLE := fun a b =>
  inferInstanceAs (Decidable (a.date ≤ b.date))

instance : IsTotal Record dateLE :=
  ⟨fun a b => le_total a.date b.date⟩

instance : IsTrans Record dateLE :=
  ⟨fun _ _ _ h1 h2 => le_trans h1 h2⟩

/-- Descending-value order on records, as
`sort_values(by="Value_kNOK", ascending=False)`. -/
def valueDescLE (a b : Record) : Prop :=
  b.value ≤ a.value

instance : DecidableRel valueDescLE := fun a b =>
  inferInstanceAs (Decidable (b.value ≤ a.value))

instance : IsTotal Record valueDescLE :=
  ⟨fun a b => le_total b.value a.value⟩

instance : IsTrans Record valueDescLE :=
  ⟨fun _ _ _ h1 h2 => le_trans h2 h1⟩

/-- Modelled from the spec: "`totals_over_time` = the TOTAL-only
sub-series sorted by date" — the reference side of the refinement claim,
for comparison with `summaryTotalsOverTime` (which the code computes by
summing the non-TOTAL rows per date). -/
def totalOnlySubseries (df : List Record) : List (ℤ × ℚ) :=
  ((df.filter (fun r => decide (r.instrument = "TOTAL"))).insertionSort
      dateLE).map (fun r => (r.date, r.value))

/-- `df["Date"].max()` over a non-empty table (`data_manager.py` line 47);
`0` on the empty table, which `get_latest_snapshot` screens out. -/
def latestDate (df : List Record) : ℤ :=
  match df with
  | [] => 0
  | r :: rs => (rs.map Record.date).foldl max r.date

/-- `get_latest_snapshot` (`data_manager.py` lines 40-48): the rows at the
maximal date, sorted descending by `Value_kNOK`. -/
def get_latest_snapshot (df : List Record) : List Record :=
  if df.isEmpty then []
  else
    (df.filter (fun r => decide (r.date = latestDate df))).insertionSort valueDescLE

/-- The allocation view of `app.py` line 183:
`latest_snapshot[latest_snapshot['Instrument'] != 'TOTAL']`. -/
def allocation_data (df : List Record) : List Record :=
  (get_latest_snapshot df).filter (fun r => decide (r.instrument ≠ "TOTAL"))

/-! Helper lemmas. -/

theorem getLast?_fst_max {l : List (ℤ × ℚ)}
    (hs : l.Pairwise (fun a b => a.1 < b.1)) {e : ℤ × ℚ}
    (h : l.getLast? = some e) : ∀ x ∈ l, x.1 ≤ e.1 := by
  induction l with
  | nil => simp at h
  | cons a t ih =>
    cases t with
    | nil =>
      simp only [List.getLast?_singleton, Option.some.injEq] at h
      subst h
      simp
    | cons b t' =>
      rw [List.getLast?_cons_cons] at h
      intro x hx
      rcases List.mem_cons.mp hx with hxa | hxt
      · subst hxa
        have hmem : e ∈ b :: t' := List.mem_of_mem_getLast? h
        exact le_of_lt (List.rel_of_pairwise_cons hs hmem)
      · exact ih hs.of_cons h x hxt

theorem latestLE_eq_some {series : Series} {d : ℤ}
    (hs : series.Pairwise (fun a b => a.1 < b.1)) {p : ℚ}
    (hp : latestLE series d = some p) :
    ∃ t, (t, p) ∈ series ∧ t ≤ d ∧ ∀ e ∈ series, e.1 ≤ d → e.1 ≤ t := by
  rcases Option.map_eq_some'.mp hp with ⟨e, he, hep⟩
  have hmem : e ∈ series.filter (fun e => decide (e.1 ≤ d)) :=
    List.mem_of_mem_getLast? he
  rcases List.mem_filter.mp hmem with ⟨hin, hled⟩
  refine ⟨e.1, ?_, by simpa using hled, ?_⟩
  · simpa [← hep] using hin
  · intro x hx hxd
    have hxf : x ∈ series.filter (fun e => decide (e.1 ≤ d)) :=
      List.mem_filter.mpr ⟨hx, by simpa using hxd⟩
    exact getLast?_fst_max (List.Pairwise.sublist (List.filter_sublist series) hs) he x hxf

theorem latestLE_eq_none {series : Series} {d : ℤ} :
    latestLE series d = none ↔ ∀ e ∈ series, d < e.1 := by
  unfold latestLE
  rw [Option.map_eq_none', List.getLast?_eq_none_iff, List.filter_eq_nil_iff]
  constructor
  · intro h e he
    have := h e he
    simp only [decide_eq_true_eq] at this
    omega
  · intro h e he
    simp only [decide_eq_true_eq]
    have := h e he
    omega

/-- The fetched window of `get_price_on_date` consists of entries dated
at most the query date, so the lookup is the nearest-prior lookup over the
window; in particular the `isna` fallback to `data.index[0]` is dead. -/
theorem get_price_on_date_eq_latestLE (priceData : String → Series)
    (symbol : String) (d : ℤ) :
    get_price_on_date priceData symbol d =
      latestLE ((priceData symbol).filter
        (fun e => decide (d - 7 ≤ e.1) && decide (e.1 ≤ d))) d := by
  unfold get_price_on_date latestLE
  cases hdata : (priceData symbol).filter
      (fun e => decide (d - 7 ≤ e.1) && decide (e.1 ≤ d)) with
  | nil => simp
  | cons e₀ rest =>
    have hself : (e₀ :: rest).filter (fun e => decide (e.1 ≤ d)) = e₀ :: rest := by
      rw [List.filter_eq_self]
      intro a ha
      have hwin : a ∈ (priceData symbol).filter
          (fun e => decide (d - 7 ≤ e.1) && decide (e.1 ≤ d)) := hdata ▸ ha
      rcases List.mem_filter.mp hwin with ⟨-, hw⟩
      exact Bool.and_elim_right hw
    rw [hself]
    cases hlast : (e₀ :: rest).getLast? with
    | none => exact absurd (List.getLast?_eq_none_iff.mp hlast) (by simp)
    | some e =>
      show (match ((e₀ :: rest).filter (fun e => decide (e.1 ≤ d))).getLast? with
            | some e => some e.2
            | none => some e₀.2) = Option.map (fun e => e.2) (some e)
      rw [hself, hlast]
      rfl

/-! Claim C1. -/

/-- C1 (counterexample): for the series `[(0, 100)]` and query date `10`,
an entry dated at or before the query date exists (the nearest-prior
lookup yields `100`), yet `get_price_on_date` returns MISSING — its fetch
window reaches only 7 days back, so the claim as stated fails on
`get_price_on_date`. -/
theorem C1_counterexample :
    get_price_on_date (fun _ => [((0 : ℤ), (100 : ℚ))]) "AMD" 10 = none ∧
    (0 : ℤ) ≤ 10 ∧
    latestLE [((0 : ℤ), (100 : ℚ))] 10 = some 100 :=
  ⟨by decide, by decide, by decide⟩

/-- C1 (amended): for every strictly date-ascending series, the lookup of
`build_portfolio_data` (`latestLE`) returns the price of the latest entry
dated at or before the query date, returns MISSING exactly when no such
entry exists, and behaves as claimed on the two-entry scenario; while
`get_price_on_date` consults only the fetch window of the 7 days up to the
query date: it returns the latest entry within that window (hence never a
price dated after the query date) and MISSING exactly when the window is
empty — even when older entries at or before the query date exist. -/
theorem C1_price_resolution (series : Series) (d : ℤ)
    (hs : series.Pairwise (fun a b => a.1 < b.1))
    (priceData : String → Series) (sym : String)
    (hps : (priceData sym).Pairwise (fun a b => a.1 < b.1)) :
    (∀ p, latestLE series d = some p →
      ∃ t, (t, p) ∈ series ∧ t ≤ d ∧ ∀ e ∈ series, e.1 ≤ d → e.1 ≤ t) ∧
    (latestLE series d = none ↔ ∀ e ∈ series, d < e.1) ∧
    (∀ (d1 : ℤ) (p1 : ℚ) (d2 : ℤ) (p2 : ℚ) (q : ℤ), d1 < d2 → d1 ≤ q → q < d2 →
      latestLE [(d1, p1), (d2, p2)] q = some p1) ∧
    (∀ (d1 : ℤ) (p1 : ℚ) (d2 : ℤ) (p2 : ℚ) (q : ℤ), d1 < d2 → q < d1 →
      latestLE [(d1, p1), (d2, p2)] q = none) ∧
    (∀ p, get_price_on_date priceData sym d = some p →
      ∃ t, (t, p) ∈ priceData sym ∧ d - 7 ≤ t ∧ t ≤ d ∧
        ∀ e ∈ priceData sym, d - 7 ≤ e.1 → e.1 ≤ d → e.1 ≤ t) ∧
    (get_price_on_date priceData sym d = none ↔
      ∀ e ∈ priceData sym, ¬(d - 7 ≤ e.1 ∧ e.1 ≤ d)) := by
  refine ⟨fun p hp => latestLE_eq_some hs hp, latestLE_eq_none, ?_, ?_, ?_, ?_⟩
  · intro d1 p1 d2 p2 q h12 hd1 hd2
    have h1 : decide (d1 ≤ q) = true := by simpa using hd1
    have h2 : decide (d2 ≤ q) = false := by simp; omega
    simp [latestLE, List.filter_cons, List.filter_nil, h1, h2]
  · intro d1 p1 d2 p2 q h12 hq
    rw [latestLE_eq_none]
    intro e he
    simp only [List.mem_cons, List.not_mem_nil, or_false] at he
    rcases he with rfl | rfl
    · simpa using hq
    · simp
      omega
  · intro p hp
    rw [get_price_on_date_eq_latestLE] at hp
    have hwin : ((priceData sym).filter
        (fun e => decide (d - 7 ≤ e.1) && decide (e.1 ≤ d))).Pairwise
        (fun a b => a.1 < b.1) :=
      List.Pairwise.sublist (List.filter_sublist _) hps
    rcases latestLE_eq_some hwin hp with ⟨t, htmem, htd, hmax⟩
    rcases List.mem_filter.mp htmem with ⟨hin, hb⟩
    have hb' := Bool.and_elim_left hb
    refine ⟨t, hin, by simpa using hb', htd, ?_⟩
    intro e he h7 hd'
    have hef : e ∈ (priceData sym).filter
        (fun e => decide (d - 7 ≤ e.1) && decide (e.1 ≤ d)) :=
      List.mem_filter.mpr ⟨he, by simp [h7, hd']⟩
    exact hmax e hef hd'
  · rw [get_price_on_date_eq_latestLE, latestLE_eq_none]
    constructor
    · intro h e he hc
      have hef : e ∈ (priceData sym).filter
          (fun e => decide (d - 7 ≤ e.1) && decide (e.1 ≤ d)) :=
        List.mem_filter.mpr ⟨he, by simp [hc.1, hc.2]⟩
      have := h e hef
      omega
    · intro h e he
      rcases List.mem_filter.mp he with ⟨hin, hb⟩
      have h7 := Bool.and_elim_left hb
      have hd' := Bool.and_elim_right hb
      simp only [decide_eq_true_eq] at h7 hd'
      exact absurd ⟨h7, hd'⟩ (h e hin)

/-- C1 (witness): the amended theorem applied to the concrete ascending
series `[(1, 5), (3, 7)]` at query date `2`. -/
theorem C1_price_resolution_witness :
    latestLE [((1 : ℤ), (5 : ℚ)), ((3 : ℤ), (7 : ℚ))] 2 = none ↔
      ∀ e ∈ [((1 : ℤ), (5 : ℚ)), ((3 : ℤ), (7 : ℚ))], (2 : ℤ) < e.1 :=
  (C1_price_resolution [((1 : ℤ), (5 : ℚ)), ((3 : ℤ), (7 : ℚ))] 2 (by decide)
    (fun _ => [((1 : ℤ), (5 : ℚ)), ((3 : ℤ), (7 : ℚ))]) "AMD" (by decide)).2.1

/-! Claim C4. -/

theorem holdingsLookup_updateAssoc (acc : List (String × ℚ)) (s' : String)
    (x : ℚ) (s : String) :
    holdingsLookup (updateAssoc acc s' x) s =
      holdingsLookup acc s + (if s' = s then x else 0) := by
  induction acc with
  | nil =>
    by_cases h : s' = s <;>
      simp [holdingsLookup, updateAssoc, List.find?, h]
  | cons e rest ih =>
    by_cases he : e.1 = s'
    · by_cases hs : e.1 = s
      · have hs' : s' = s := by rw [← he, hs]
        simp [holdingsLookup, updateAssoc, he, hs, hs',
          List.find?_cons_of_pos]
      · have hs' : ¬s' = s := fun h => hs (he ▸ h)
        simp [holdingsLookup, updateAssoc, he, hs, hs',
          List.find?_cons_of_neg]
    · by_cases hs : e.1 = s
      · have hs' : ¬s' = s := fun h => he (h ▸ hs)
        have hs'' : ¬s = s' := fun h => hs' h.symm
        simp [holdingsLookup, updateAssoc, he, hs, hs', hs'',
          List.find?_cons_of_pos]
      · have := ih
        simp only [holdingsLookup] at this ⊢
        simp [updateAssoc, he, List.find?_cons_of_neg, hs, this]

theorem holdingsLookup_foldl (ts : List Tx) (acc : List (String × ℚ))
    (s : String) :
    holdingsLookup (ts.foldl
        (fun acc t => updateAssoc acc t.symbol (quantity_or_amount t)) acc) s =
      holdingsLookup acc s +
        ((ts.filter (fun t => decide (t.symbol = s))).map quantity_or_amount).sum := by
  induction ts generalizing acc with
  | nil => simp
  | cons t ts ih =>
    rw [List.foldl_cons, ih, holdingsLookup_updateAssoc]
    by_cases h : t.symbol = s
    · simp [h]
      ring
    · simp [h]

/-- C4: holdings replay equals, per symbol, the sum of the
`quantity_or_amount` field over exactly the transactions dated at or
before the query date (the spec's field is realised per kind: the invested
amount held in the `price` slot for the pooled fund `KRON_GLOBAL`, the
`quantity` slot otherwise); transactions dated later contribute nothing,
and the pooled-fund holdings value is monotonically non-decreasing in the
query date whenever the ledger's invested amounts are non-negative. -/
theorem C4_holdings_replay (txs : List Tx) (d : ℤ) (s : String) :
    holdingsLookup (dateHoldings txs d) s =
      ((txs.filter (fun t => decide (t.date ≤ d) && decide (t.symbol = s))).map
        quantity_or_amount).sum ∧
    (∀ d' : ℤ, d ≤ d' →
      (∀ t ∈ txs, t.symbol = "KRON_GLOBAL" → 0 ≤ t.price) →
      holdingsLookup (dateHoldings txs d) "KRON_GLOBAL" ≤
        holdingsLookup (dateHoldings txs d') "KRON_GLOBAL") := by
  have key : ∀ (dd : ℤ) (ss : String),
      holdingsLookup (dateHoldings txs dd) ss =
        ((txs.filter (fun t => decide (t.date ≤ dd) && decide (t.symbol = ss))).map
          quantity_or_amount).sum := by
    intro dd ss
    unfold dateHoldings
    rw [holdingsLookup_foldl, List.filter_filter]
    have hcongr : ∀ t ∈ txs,
        (decide (t.symbol = ss) && decide (t.date ≤ dd)) =
          (decide (t.date ≤ dd) && decide (t.symbol = ss)) := by
      intro t _
      exact Bool.and_comm _ _
    rw [List.filter_congr hcongr]
    simp [holdingsLookup]
  refine ⟨key d s, ?_⟩
  intro d' hdd' hpos
  rw [key d "KRON_GLOBAL", key d' "KRON_GLOBAL"]
  have hsub : (txs.filter
      (fun t => decide (t.date ≤ d) && decide (t.symbol = "KRON_GLOBAL"))).Sublist
      (txs.filter
        (fun t => decide (t.date ≤ d') && decide (t.symbol = "KRON_GLOBAL"))) := by
    apply List.monotone_filter_right
    intro t ht
    rcases Bool.and_eq_true_iff.mp ht with ⟨h1, h2⟩
    simp only [decide_eq_true_eq] at h1
    simp [h2]
    omega
  refine List.Sublist.sum_le_sum (hsub.map quantity_or_amount) ?_
  intro a ha
  rcases List.mem_map.mp ha with ⟨t, htmem, rfl⟩
  rcases List.mem_filter.mp htmem with ⟨htxs, hb⟩
  have hk := Bool.and_elim_right hb
  simp only [decide_eq_true_eq] at hk
  have := hpos t htxs hk
  simpa [quantity_or_amount, hk] using this

/-- C4 (witness): the monotonicity conjunct at a concrete ledger. -/
theorem C4_holdings_replay_witness :
    holdingsLookup
        (dateHoldings [⟨1, "AMD", 1, 0, "USD"⟩, ⟨2, "KRON_GLOBAL", 0, 500, "NOK"⟩] 1)
        "KRON_GLOBAL" ≤
      holdingsLookup
        (dateHoldings [⟨1, "AMD", 1, 0, "USD"⟩, ⟨2, "KRON_GLOBAL", 0, 500, "NOK"⟩] 3)
        "KRON_GLOBAL" :=
  (C4_holdings_replay [⟨1, "AMD", 1, 0, "USD"⟩, ⟨2, "KRON_GLOBAL", 0, 500, "NOK"⟩]
      1 "KRON_GLOBAL").2 3 (by decide) (by decide)

/-! Claim C7. -/

/-- C7: for every table whose derived totals-over-time series is
non-empty, `percent_change` equals (last total − first total) / first
total × 100 when the first total is nonzero, and is exactly `0` when the
first total is `0` (no division error is raised). -/
theorem C7_percent_change (df : List Record)
    (hne : summaryTotalsOverTime df ≠ []) :
    summaryPercentChange df =
      (if ((summaryTotalsOverTime df).headD (0, 0)).2 = 0 then 0
       else (((summaryTotalsOverTime df).getLastD (0, 0)).2 -
              ((summaryTotalsOverTime df).headD (0, 0)).2) /
             ((summaryTotalsOverTime df).headD (0, 0)).2 * 100) := by
  unfold summaryPercentChange
  unfold summaryTotalsOverTime at hne ⊢
  unfold get_portfolio_summary at hne ⊢
  by_cases hdf : df.isEmpty
  · rw [if_pos hdf] at hne
    exact absurd rfl hne
  · rw [if_neg hdf] at hne ⊢
    by_cases hlen : (portfolioOverTime df).length < 2
    · rw [if_pos hlen] at hne ⊢
      simp only at hne ⊢
      cases hOT : portfolioOverTime df with
      | nil => rw [hOT] at hne; exact absurd rfl hne
      | cons x t =>
        rw [hOT] at hlen
        have ht : t = [] := by
          simp only [List.length_cons] at hlen
          exact List.eq_nil_of_length_eq_zero (by omega)
        subst ht
        by_cases hx : x.2 = 0
        · simp [hx]
        · simp [hx]
    · rw [if_neg hlen]
      simp only
      by_cases hx : ((portfolioOverTime df).headD (0, 0)).2 = 0
      · simp [hx]
      · simp [hx]

/-- C7 (witness): the theorem at a concrete two-date table, where the
first total is `2` and the last is `3`. -/
theorem C7_percent_change_witness :
    summaryPercentChange [⟨1, "A", 1, 2⟩, ⟨2, "A", 1, 3⟩] =
      (if ((summaryTotalsOverTime [⟨1, "A", 1, 2⟩, ⟨2, "A", 1, 3⟩]).headD (0, 0)).2 = 0
       then 0
       else (((summaryTotalsOverTime [⟨1, "A", 1, 2⟩, ⟨2, "A", 1, 3⟩]).getLastD (0, 0)).2 -
              ((summaryTotalsOverTime [⟨1, "A", 1, 2⟩, ⟨2, "A", 1, 3⟩]).headD (0, 0)).2) /
             ((summaryTotalsOverTime [⟨1, "A", 1, 2⟩, ⟨2, "A", 1, 3⟩]).headD (0, 0)).2 * 100) :=
  C7_percent_change [⟨1, "A", 1, 2⟩, ⟨2, "A", 1, 3⟩] (by decide)

/-! Structure of the engine's output. -/

theorem mem_updateAssoc {acc : List (String × ℚ)} {s' : String} {x : ℚ}
    {e : String × ℚ} (h : e ∈ updateAssoc acc s' x) :
    e.1 = s' ∨ ∃ e' ∈ acc, e'.1 = e.1 := by
  induction acc with
  | nil =>
    simp only [updateAssoc, List.mem_singleton] at h
    subst h
    exact Or.inl rfl
  | cons a rest ih =>
    by_cases ha : a.1 = s'
    · simp only [updateAssoc, if_pos ha, List.mem_cons] at h
      rcases h with h | h
      · subst h
        exact Or.inl ha
      · exact Or.inr ⟨e, List.mem_cons_of_mem a h, rfl⟩
    · simp only [updateAssoc, if_neg ha, List.mem_cons] at h
      rcases h with h | h
      · exact Or.inr ⟨a, List.mem_cons_self a rest, by rw [h]⟩
      · rcases ih h with h' | ⟨e', he', hee⟩
        · exact Or.inl h'
        · exact Or.inr ⟨e', List.mem_cons_of_mem a he', hee⟩

theorem mem_foldl_updateAssoc {ts : List Tx} {acc : List (String × ℚ)}
    {e : String × ℚ}
    (h : e ∈ ts.foldl (fun acc t => updateAssoc acc t.symbol (quantity_or_amount t)) acc) :
    (∃ e' ∈ acc, e'.1 = e.1) ∨ ∃ t ∈ ts, t.symbol = e.1 := by
  induction ts generalizing acc with
  | nil =>
    exact Or.inl ⟨e, h, rfl⟩
  | cons t ts ih =>
    rw [List.foldl_cons] at h
    rcases ih h with ⟨e', he', hee⟩ | ⟨t', ht', hts⟩
    · rcases mem_updateAssoc he' with h' | ⟨e'', he'', hee'⟩
      · exact Or.inr ⟨t, List.mem_cons_self t ts, h'.symm.trans hee⟩
      · exact Or.inl ⟨e'', he'', hee'.trans hee⟩
    · exact Or.inr ⟨t', List.mem_cons_of_mem t ht', hts⟩

theorem dateHoldings_key {txs : List Tx} {d : ℤ} {e : String × ℚ}
    (h : e ∈ dateHoldings txs d) : ∃ t ∈ txs, t.symbol = e.1 := by
  unfold dateHoldings at h
  rcases mem_foldl_updateAssoc h with ⟨e', he', -⟩ | ⟨t, ht, hts⟩
  · exact absurd he' (List.not_mem_nil e')
  · exact ⟨t, List.mem_of_mem_filter ht, hts⟩

theorem mem_recordsForDate {txs : List Tx} {hist : String → Option Series}
    {err : ℤ → String → Bool} {d : ℤ} {r : Record}
    (h : r ∈ recordsForDate txs hist err d) :
    r.date = d ∧ ∃ t ∈ txs, t.symbol = r.instrument := by
  unfold recordsForDate at h
  rcases List.mem_filterMap.mp h with ⟨e, he, hfe⟩
  by_cases hq : e.2 ≤ 0
  · rw [if_pos hq] at hfe
    exact absurd hfe (by simp)
  · rw [if_neg hq] at hfe
    rcases Option.map_eq_some'.mp hfe with ⟨v, -, hv⟩
    rcases dateHoldings_key he with ⟨t, ht, hts⟩
    subst hv
    exact ⟨rfl, t, ht, hts⟩

theorem engineRecords_not_total {txs : List Tx} {hist : String → Option Series}
    {err : ℤ → String → Bool} {today : ℤ}
    (hT : ∀ t ∈ txs, t.symbol ≠ "TOTAL") :
    ∀ r ∈ engineRecords txs hist err today, r.instrument ≠ "TOTAL" := by
  intro r hr
  rcases List.mem_flatMap.mp hr with ⟨d, -, hrd⟩
  rcases mem_recordsForDate hrd with ⟨-, t, ht, hts⟩
  exact hts ▸ hT t ht

theorem mem_firstUniquesAux {l seen : List ℤ} {a : ℤ} :
    a ∈ firstUniquesAux seen l ↔ a ∈ l ∧ a ∉ seen := by
  induction l generalizing seen with
  | nil => simp [firstUniquesAux]
  | cons d ds ih =>
    by_cases hd : d ∈ seen
    · rw [firstUniquesAux, if_pos hd, ih]
      constructor
      · rintro ⟨h1, h2⟩
        exact ⟨List.mem_cons_of_mem d h1, h2⟩
      · rintro ⟨h1, h2⟩
        rcases List.mem_cons.mp h1 with rfl | h1
        · exact absurd hd h2
        · exact ⟨h1, h2⟩
    · rw [firstUniquesAux, if_neg hd]
      constructor
      · intro h
        rcases List.mem_cons.mp h with rfl | h
        · exact ⟨List.mem_cons_self a ds, hd⟩
        · rcases ih.mp h with ⟨h1, h2⟩
          exact ⟨List.mem_cons_of_mem d h1,
            fun hc => h2 (List.mem_cons_of_mem d hc)⟩
      · rintro ⟨h1, h2⟩
        rcases List.mem_cons.mp h1 with rfl | h1
        · exact List.mem_cons_self a _
        · by_cases had : a = d
          · subst had
            exact List.mem_cons_self a _
          · exact List.mem_cons_of_mem d
              (ih.mpr ⟨h1, by simp [had, h2]⟩)

theorem nodup_firstUniquesAux (l : List ℤ) (seen : List ℤ) :
    (firstUniquesAux seen l).Nodup := by
  induction l generalizing seen with
  | nil => exact List.nodup_nil
  | cons d ds ih =>
    by_cases hd : d ∈ seen
    · rw [firstUniquesAux, if_pos hd]
      exact ih seen
    · rw [firstUniquesAux, if_neg hd]
      refine List.Nodup.cons ?_ (ih (d :: seen))
      intro hc
      exact (mem_firstUniquesAux.mp hc).2 (List.mem_cons_self d seen)

theorem mem_firstUniques {l : List ℤ} {a : ℤ} :
    a ∈ firstUniques l ↔ a ∈ l := by
  unfold firstUniques
  rw [mem_firstUniquesAux]
  simp

theorem nodup_firstUniques (l : List ℤ) : (firstUniques l).Nodup :=
  nodup_firstUniquesAux l []

theorem filter_eq_of_nodup {l : List ℤ} (hn : l.Nodup) (d : ℤ) :
    l.filter (fun x => decide (x = d)) = if d ∈ l then [d] else [] := by
  induction l with
  | nil => simp
  | cons a t ih =>
    rw [List.nodup_cons] at hn
    obtain ⟨ha, ht⟩ := hn
    rw [List.filter_cons, ih ht]
    by_cases had : a = d
    · subst had
      rw [if_pos (by simp : (decide (a = a)) = true), if_neg ha,
        if_pos (List.mem_cons_self a t)]
    · rw [if_neg (by simp [had] : ¬(decide (a = d)) = true)]
      by_cases hdt : d ∈ t
      · rw [if_pos hdt, if_pos (List.mem_cons_of_mem a hdt)]
      · rw [if_neg hdt, if_neg (by simp [hdt, Ne.symm had])]

theorem mem_totalsFor {rs : List Record} {r : Record} :
    r ∈ totalsFor rs ↔
      ∃ d, d ∈ rs.map Record.date ∧ r = ⟨d, "TOTAL", 1, sumValuesAt rs d⟩ := by
  unfold totalsFor
  rw [List.mem_map]
  constructor
  · rintro ⟨d, hd, rfl⟩
    exact ⟨d, mem_firstUniques.mp hd, rfl⟩
  · rintro ⟨d, hd, rfl⟩
    exact ⟨d, mem_firstUniques.mpr hd, rfl⟩

theorem totalsFor_filter_date (rs : List Record) (d : ℤ) :
    (totalsFor rs).filter (fun r => decide (r.date = d)) =
      if d ∈ rs.map Record.date then [⟨d, "TOTAL", 1, sumValuesAt rs d⟩] else [] := by
  unfold totalsFor
  rw [List.filter_map]
  have hcomp :
      (fun r : Record => decide (r.date = d)) ∘
        (fun d' : ℤ => (⟨d', "TOTAL", 1, sumValuesAt rs d'⟩ : Record)) =
      fun d' : ℤ => decide (d' = d) := rfl
  rw [hcomp, filter_eq_of_nodup (nodup_firstUniques _) d]
  by_cases hd : d ∈ rs.map Record.date
  · rw [if_pos (mem_firstUniques.mpr hd), if_pos hd]
    rfl
  · rw [if_neg (fun hc => hd (mem_firstUniques.mp hc)), if_neg hd]
    rfl

theorem build_perm {txs : List Tx} {hist : String → Option Series}
    {err : ℤ → String → Bool} {today : ℤ} {out : List Record}
    (hout : build_portfolio_data txs hist err today = some out) :
    out.Perm (engineRecords txs hist err today ++
      totalsFor (engineRecords txs hist err today)) := by
  unfold build_portfolio_data at hout
  cases txs with
  | nil => exact absurd hout (by simp)
  | cons t ts =>
    by_cases hR : (engineRecords (t :: ts) hist err today).isEmpty
    · rw [if_pos hR] at hout
      have hR' : engineRecords (t :: ts) hist err today = [] :=
        List.isEmpty_iff.mp hR
      have hout' : out = [] := by
        injection hout with h
        exact h.symm
      rw [hout', hR']
      exact List.Perm.refl _
    · rw [if_neg hR] at hout
      have hout' : out = sortRecords (engineRecords (t :: ts) hist err today ++
          totalsFor (engineRecords (t :: ts) hist err today)) := by
        injection hout with h
        exact h.symm
      rw [hout']
      exact List.perm_insertionSort recLE _

theorem out_total_filter {txs : List Tx} {hist : String → Option Series}
    {err : ℤ → String → Bool} {today : ℤ} {out : List Record}
    (hT : ∀ t ∈ txs, t.symbol ≠ "TOTAL")
    (hout : build_portfolio_data txs hist err today = some out) (d : ℤ) :
    (out.filter (fun r => decide (r.date = d) && decide (r.instrument = "TOTAL"))).Perm
      (if d ∈ (engineRecords txs hist err today).map Record.date
       then [⟨d, "TOTAL", 1, sumValuesAt (engineRecords txs hist err today) d⟩]
       else []) := by
  have hp := (build_perm hout).filter
    (fun r => decide (r.date = d) && decide (r.instrument = "TOTAL"))
  rw [List.filter_append] at hp
  have hR : (engineRecords txs hist err today).filter
      (fun r => decide (r.date = d) && decide (r.instrument = "TOTAL")) = [] := by
    rw [List.filter_eq_nil_iff]
    intro r hr
    simp [engineRecords_not_total hT r hr]
  have hTot : (totalsFor (engineRecords txs hist err today)).filter
      (fun r => decide (r.date = d) && decide (r.instrument = "TOTAL")) =
      (totalsFor (engineRecords txs hist err today)).filter
        (fun r => decide (r.date = d)) := by
    apply List.filter_congr
    intro r hr
    rcases mem_totalsFor.mp hr with ⟨d', -, rfl⟩
    simp
  rw [hR, hTot, totalsFor_filter_date] at hp
  simpa using hp

theorem out_nontotal_filter {txs : List Tx} {hist : String → Option Series}
    {err : ℤ → String → Bool} {today : ℤ} {out : List Record}
    (hT : ∀ t ∈ txs, t.symbol ≠ "TOTAL")
    (hout : build_portfolio_data txs hist err today = some out) (d : ℤ) :
    (out.filter (fun r => decide (r.date = d) && decide (r.instrument ≠ "TOTAL"))).Perm
      ((engineRecords txs hist err today).filter (fun r => decide (r.date = d))) := by
  have hp := (build_perm hout).filter
    (fun r => decide (r.date = d) && decide (r.instrument ≠ "TOTAL"))
  rw [List.filter_append] at hp
  have hR : (engineRecords txs hist err today).filter
      (fun r => decide (r.date = d) && decide (r.instrument ≠ "TOTAL")) =
      (engineRecords txs hist err today).filter (fun r => decide (r.date = d)) := by
    apply List.filter_congr
    intro r hr
    simp [engineRecords_not_total hT r hr]
  have hTot : (totalsFor (engineRecords txs hist err today)).filter
      (fun r => decide (r.date = d) && decide (r.instrument ≠ "TOTAL")) = [] := by
    rw [List.filter_eq_nil_iff]
    intro r hr
    rcases mem_totalsFor.mp hr with ⟨d', -, rfl⟩
    simp
  rw [hR, hTot, List.append_nil] at hp
  exact hp

theorem date_present_mem {txs : List Tx} {hist : String → Option Series}
    {err : ℤ → String → Bool} {today : ℤ} {out : List Record}
    (hout : build_portfolio_data txs hist err today = some out) {d : ℤ}
    (hd : ∃ r ∈ out, r.date = d) :
    d ∈ (engineRecords txs hist err today).map Record.date := by
  rcases hd with ⟨r, hr, hrd⟩
  have hr' := (build_perm hout).mem_iff.mp hr
  rcases List.mem_append.mp hr' with h | h
  · exact List.mem_map.mpr ⟨r, h, hrd⟩
  · rcases mem_totalsFor.mp h with ⟨d', hd', rfl⟩
    exact hrd ▸ hd'

/-! Claim C2. -/

/-- C2: for every date present in the engine's output, there is exactly
one TOTAL record for that date, and its value equals the sum of
`Value_kNOK` over the non-TOTAL records of the same date (exactly — the
embedding's rationals carry no rounding).  The ledger hypothesis reserves
the sentinel name: no transaction is itself labelled `TOTAL`. -/
theorem C2_total_invariant (txs : List Tx) (hist : String → Option Series)
    (err : ℤ → String → Bool) (today : ℤ) (out : List Record) (d : ℤ)
    (hT : ∀ t ∈ txs, t.symbol ≠ "TOTAL")
    (hout : build_portfolio_data txs hist err today = some out)
    (hd : ∃ r ∈ out, r.date = d) :
    (out.filter (fun r => decide (r.date = d) && decide (r.instrument = "TOTAL"))).length
      = 1 ∧
    ((out.filter (fun r => decide (r.date = d) && decide (r.instrument = "TOTAL"))).map
      Record.value).sum =
    ((out.filter (fun r => decide (r.date = d) && decide (r.instrument ≠ "TOTAL"))).map
      Record.value).sum := by
  have hmem := date_present_mem hout hd
  have hTotF := out_total_filter hT hout d
  rw [if_pos hmem] at hTotF
  constructor
  · rw [hTotF.length_eq]
    rfl
  · rw [(hTotF.map Record.value).sum_eq,
      ((out_nontotal_filter hT hout d).map Record.value).sum_eq]
    simp [sumValuesAt]

/-- C2 (witness): the theorem at a one-transaction ledger with a constant
price and FX series, at the first valued date; the output table is
`[(33, AMD, 1, 0.5), (33, TOTAL, 1, 0.5)]`. -/
theorem C2_total_invariant_witness :
    (([⟨33, "AMD", 1, 1/2⟩, ⟨33, "TOTAL", 1, 1/2⟩] : List Record).filter
      (fun r => decide (r.date = 33) && decide (r.instrument = "TOTAL"))).length = 1 ∧
    ((([⟨33, "AMD", 1, 1/2⟩, ⟨33, "TOTAL", 1, 1/2⟩] : List Record).filter
      (fun r => decide (r.date = 33) && decide (r.instrument = "TOTAL"))).map
      Record.value).sum =
    ((([⟨33, "AMD", 1, 1/2⟩, ⟨33, "TOTAL", 1, 1/2⟩] : List Record).filter
      (fun r => decide (r.date = 33) && decide (r.instrument ≠ "TOTAL"))).map
      Record.value).sum :=
  C2_total_invariant [⟨31, "AMD", 1, 0, "USD"⟩]
    (fun s => if s = "AMD" then some [(33, 50)]
              else if s = "USDNOK" then some [(0, 10)] else none)
    (fun _ _ => false) 33 [⟨33, "AMD", 1, 1/2⟩, ⟨33, "TOTAL", 1, 1/2⟩] 33
    (by decide) (by decide) ⟨⟨33, "AMD", 1, 1/2⟩, by decide, rfl⟩

/-! Claim C5. -/

/-- C5 (counterexample): with one `AMD` transaction on day 31 and a price
series that only starts on day 33, the instrument has positive holdings on
day 31 yet the output (built through day 35) contains no record at all
dated 31 — no TOTAL record of value 0 is emitted for a date whose
instrument rows were all skipped, although later dates of the same run are
present. -/
theorem C5_counterexample :
    build_portfolio_data [⟨31, "AMD", 1, 0, "USD"⟩]
        (fun s => if s = "AMD" then some [(33, 50)]
                  else if s = "USDNOK" then some [(0, 10)] else none)
        (fun _ _ => false) 35 =
      some [⟨33, "AMD", 1, 1/2⟩, ⟨33, "TOTAL", 1, 1/2⟩,
            ⟨34, "AMD", 1, 1/2⟩, ⟨34, "TOTAL", 1, 1/2⟩,
            ⟨35, "AMD", 1, 1/2⟩, ⟨35, "TOTAL", 1, 1/2⟩] ∧
    holdingsLookup (dateHoldings [⟨31, "AMD", 1, 0, "USD"⟩] 31) "AMD" = 1 ∧
    ([⟨33, "AMD", 1, 1/2⟩, ⟨33, "TOTAL", 1, 1/2⟩,
      ⟨34, "AMD", 1, 1/2⟩, ⟨34, "TOTAL", 1, 1/2⟩,
      ⟨35, "AMD", 1, 1/2⟩, ⟨35, "TOTAL", 1, 1/2⟩] : List Record).filter
        (fun r => decide (r.date = 31)) = [] :=
  ⟨by decide, by decide, by decide⟩

/-- C5 (amended): for every date with at least one emitted instrument
record, the output carries a TOTAL record for that date whose value is the
sum of that date's instrument records; a date in range for which no
instrument record was emitted is absent from the output series entirely —
in particular no TOTAL record of value 0 is emitted for it. -/
theorem C5_total_emission (txs : List Tx) (hist : String → Option Series)
    (err : ℤ → String → Bool) (today : ℤ) (out : List Record) (d : ℤ)
    (hT : ∀ t ∈ txs, t.symbol ≠ "TOTAL")
    (hout : build_portfolio_data txs hist err today = some out) :
    ((∃ r ∈ out, r.date = d ∧ r.instrument ≠ "TOTAL") →
      ∃ r ∈ out, r.date = d ∧ r.instrument = "TOTAL" ∧
        r.value = ((out.filter (fun r => decide (r.date = d) &&
          decide (r.instrument ≠ "TOTAL"))).map Record.value).sum) ∧
    ((¬ ∃ r ∈ out, r.date = d ∧ r.instrument ≠ "TOTAL") →
      ∀ r ∈ out, r.date ≠ d) := by
  constructor
  · rintro ⟨r, hr, hrd, hrT⟩
    have hr' := (build_perm hout).mem_iff.mp hr
    have hmem : d ∈ (engineRecords txs hist err today).map Record.date := by
      rcases List.mem_append.mp hr' with h | h
      · exact List.mem_map.mpr ⟨r, h, hrd⟩
      · rcases mem_totalsFor.mp h with ⟨d', -, rfl⟩
        exact absurd rfl hrT
    refine ⟨⟨d, "TOTAL", 1, sumValuesAt (engineRecords txs hist err today) d⟩,
      (build_perm hout).mem_iff.mpr
        (List.mem_append_right _ (mem_totalsFor.mpr ⟨d, hmem, rfl⟩)),
      rfl, rfl, ?_⟩
    rw [((out_nontotal_filter hT hout d).map Record.value).sum_eq]
    rfl
  · intro hno r hr
    intro hrd
    rcases List.mem_append.mp ((build_perm hout).mem_iff.mp hr) with h | h
    · exact hno ⟨r, hr, hrd, engineRecords_not_total hT r h⟩
    · rcases mem_totalsFor.mp h with ⟨d', hd', heq⟩
      have hd'' : d' = d := by
        rw [heq] at hrd
        exact hrd
      subst hd''
      rcases List.mem_map.mp hd' with ⟨r', hr', hr'd⟩
      exact hno ⟨r', (build_perm hout).mem_iff.mpr (List.mem_append_left _ hr'),
        hr'd, engineRecords_not_total hT r' hr'⟩

/-- C5 (witness): the amended theorem's absence conjunct at the concrete
counterexample run — day 31 has holdings but no emitted record, so no row
of the output is dated 31. -/
theorem C5_total_emission_witness :
    ([⟨33, "AMD", 1, 1/2⟩, ⟨33, "TOTAL", 1, 1/2⟩,
      ⟨34, "AMD", 1, 1/2⟩, ⟨34, "TOTAL", 1, 1/2⟩,
      ⟨35, "AMD", 1, 1/2⟩, ⟨35, "TOTAL", 1, 1/2⟩] : List Record).filter
        (fun r => decide (r.date = 31)) = [] := by
  have h := (C5_total_emission [⟨31, "AMD", 1, 0, "USD"⟩]
      (fun s => if s = "AMD" then some [(33, 50)]
                else if s = "USDNOK" then some [(0, 10)] else none)
      (fun _ _ => false) 35
      [⟨33, "AMD", 1, 1/2⟩, ⟨33, "TOTAL", 1, 1/2⟩,
       ⟨34, "AMD", 1, 1/2⟩, ⟨34, "TOTAL", 1, 1/2⟩,
       ⟨35, "AMD", 1, 1/2⟩, ⟨35, "TOTAL", 1, 1/2⟩] 31
      (by decide) (by decide)).2 (by decide)
  rw [List.filter_eq_nil_iff]
  intro r hr
  simpa using h r hr

/-! Claim C10. -/

/-- C10: every TOTAL record of the engine's output has `Quantity = 1`,
for every date and whatever the instrument quantities summed into it (the
ledger hypothesis reserves the sentinel name). -/
theorem C10_total_quantity_one (txs : List Tx) (hist : String → Option Series)
    (err : ℤ → String → Bool) (today : ℤ) (out : List Record)
    (hT : ∀ t ∈ txs, t.symbol ≠ "TOTAL")
    (hout : build_portfolio_data txs hist err today = some out) :
    ∀ r ∈ out, r.instrument = "TOTAL" → r.quantity = 1 := by
  intro r hr hrT
  rcases List.mem_append.mp ((build_perm hout).mem_iff.mp hr) with h | h
  · exact absurd hrT (engineRecords_not_total hT r h)
  · rcases mem_totalsFor.mp h with ⟨d', -, rfl⟩
    rfl

/-- C10 (witness): the theorem at a concrete run — every TOTAL row of the
concrete output passes the quantity-1 check. -/
theorem C10_total_quantity_one_witness :
    (([⟨33, "AMD", 1, 1/2⟩, ⟨33, "TOTAL", 1, 1/2⟩] : List Record).all
      (fun r => !(decide (r.instrument = "TOTAL")) || decide (r.quantity = 1))) = true := by
  have h := C10_total_quantity_one [⟨31, "AMD", 1, 0, "USD"⟩]
      (fun s => if s = "AMD" then some [(33, 50)]
                else if s = "USDNOK" then some [(0, 10)] else none)
      (fun _ _ => false) 33
      [⟨33, "AMD", 1, 1/2⟩, ⟨33, "TOTAL", 1, 1/2⟩] (by decide) (by decide)
  rw [List.all_eq_true]
  intro r hr
  by_cases hrT : r.instrument = "TOTAL"
  · simp [h r hr hrT]
  · simp [hrT]

/-! Claim C3. -/

theorem valueFor_market_none {hist : String → Option Series}
    {err : ℤ → String → Bool} {d : ℤ} {s : String} {series : Series}
    (hs1 : s ≠ "BSU") (hs2 : s ≠ "CS_KNIFE") (hs3 : s ≠ "KRON_GLOBAL")
    (hhist : hist s = some series) (hmiss : latestLE series d = none)
    (q : ℚ) : valueFor hist err d s q = none := by
  unfold valueFor
  rw [if_neg hs1, if_neg hs2, if_neg hs3, hhist]
  by_cases he : err d s
  · simp [he]
  · simp [he, hmiss]

theorem recordsForDate_skips {txs : List Tx} {hist : String → Option Series}
    {err : ℤ → String → Bool} {d : ℤ} {s : String}
    (hv : ∀ q : ℚ, valueFor hist err d s q = none) :
    ∀ r ∈ recordsForDate txs hist err d, r.instrument ≠ s := by
  intro r hr
  unfold recordsForDate at hr
  rcases List.mem_filterMap.mp hr with ⟨e, -, hfe⟩
  by_cases hq : e.2 ≤ 0
  · rw [if_pos hq] at hfe
    exact absurd hfe (by simp)
  · rw [if_neg hq] at hfe
    rcases Option.map_eq_some'.mp hfe with ⟨v, hv', heq⟩
    subst heq
    intro hes
    dsimp at hes
    rw [hes] at hv'
    rw [hv e.2] at hv'
    exact Option.noConfusion hv'

theorem mapM_ok_mem {α β : Type} {f : α → Except Unit β} {xs : List α}
    {ys : List β} (h : xs.mapM f = .ok ys) {x : α} (hx : x ∈ xs) :
    ∃ y ∈ ys, f x = .ok y := by
  induction xs generalizing ys with
  | nil => exact absurd hx (List.not_mem_nil x)
  | cons a l ih =>
    rw [List.mapM_cons] at h
    cases hfa : f a with
    | error e =>
      rw [hfa] at h
      exact absurd h (by simp [Bind.bind, Except.bind])
    | ok y =>
      rw [hfa] at h
      cases hml : l.mapM f with
      | error e =>
        rw [hml] at h
        exact absurd h (by simp [Bind.bind, Except.bind])
      | ok ys' =>
        rw [hml] at h
        have hys : ys = y :: ys' := by
          simp only [Bind.bind, Except.bind, pure, Except.pure] at h
          injection h with h'
          exact h'.symm
        subst hys
        rcases List.mem_cons.mp hx with rfl | hx'
        · exact ⟨y, List.mem_cons_self y ys', hfa⟩
        · rcases ih hml hx' with ⟨y', hy', hfy'⟩
          exact ⟨y', List.mem_cons_of_mem y hy', hfy'⟩

theorem mem_dateRange {s t d : ℤ} : d ∈ dateRange s t ↔ s ≤ d ∧ d ≤ t := by
  simp only [dateRange, List.mem_map, List.mem_range]
  constructor
  · rintro ⟨i, hi, rfl⟩
    rw [Int.lt_toNat] at hi
    omega
  · rintro ⟨h1, h2⟩
    refine ⟨(d - s).toNat, ?_, ?_⟩
    · rw [Int.lt_toNat, Int.toNat_of_nonneg (by omega)]
      omega
    · rw [Int.toNat_of_nonneg (by omega)]
      omega

theorem pyRound1_zero : pyRound1 0 = 0 := by
  norm_num [pyRound1]

theorem build_portfolio_history_zero_record {priceData : String → Series}
    {rate : ℚ} {ftxs : List FetchTx} {startD endD : ℤ}
    {fout : List FetchRecord} {instr sym : String} {shares : ℚ} {fd : ℤ}
    (hfout : build_portfolio_history priceData rate ftxs startD endD = .ok fout)
    (hfd1 : startD ≤ fd) (hfd2 : fd ≤ endD)
    (hhold : (instr, shares) ∈ fetchHoldings (fetchDetails priceData rate ftxs) fd)
    (hsym : symbolMapping instr = some sym)
    (hpnone : get_price_on_date priceData sym fd = none) :
    (⟨fd, instr, 0⟩ : FetchRecord) ∈ fout := by
  unfold build_portfolio_history at hfout
  cases hml : (dateRange startD endD).mapM
      (recordsForDateFetch priceData rate (fetchDetails priceData rate ftxs)) with
  | error e =>
    rw [hml] at hfout
    exact absurd hfout (by simp [Except.map])
  | ok dayLists =>
    rw [hml] at hfout
    have hout' : fout = dayLists.flatten := by
      simp only [Except.map] at hfout
      injection hfout with h'
      exact h'.symm
    subst hout'
    rcases mapM_ok_mem hml (mem_dateRange.mpr ⟨hfd1, hfd2⟩) with ⟨l, hl, hfl⟩
    have hrec : (⟨fd, instr, 0⟩ : FetchRecord) ∈ l := by
      unfold recordsForDateFetch at hfl
      rcases mapM_ok_mem hfl hhold with ⟨y, hy, hfy⟩
      have : calculate_position_value priceData rate instr shares fd = .ok 0 := by
        unfold calculate_position_value
        rw [hsym]
        simp [hpnone]
      rw [this] at hfy
      have hy0 : y = ⟨fd, instr, 0⟩ := by
        simp only [Except.map] at hfy
        injection hfy with h'
        rw [← h']
        have : (0 : ℚ) / 1000 = 0 := by norm_num
        rw [this, pyRound1_zero]
      exact hy0 ▸ hy
    exact List.mem_flatten.mpr ⟨l, hl, hrec⟩

/-- C3 (counterexample): in `build_portfolio_history`, the `(day 8, AMD)`
pair has positive holdings (1 share bought on day 0) and no resolvable
price on day 8 (the series holds only day 0, outside the 7-day window),
yet the output records the pair with `Value_kNOK = 0` — contradicting the
claim that such a pair is absent and never recorded as zero
(`calculate_position_value` returns `0` for a missing price). -/
theorem C3_counterexample :
    build_portfolio_history (fun s => if s = "AMD" then [(0, 100)] else []) 10
        [⟨0, "AMD", 1000, "n"⟩] 0 8 =
      Except.ok [⟨0, "AMD", 1⟩, ⟨1, "AMD", 1⟩, ⟨2, "AMD", 1⟩, ⟨3, "AMD", 1⟩,
                 ⟨4, "AMD", 1⟩, ⟨5, "AMD", 1⟩, ⟨6, "AMD", 1⟩, ⟨7, "AMD", 1⟩,
                 ⟨8, "AMD", 0⟩] ∧
    ("AMD", (1 : ℚ)) ∈ fetchHoldings
      (fetchDetails (fun s => if s = "AMD" then [(0, 100)] else []) 10
        [⟨0, "AMD", 1000, "n"⟩]) 8 ∧
    get_price_on_date (fun s => if s = "AMD" then [(0, 100)] else []) "AMD" 8 = none ∧
    (⟨8, "AMD", 0⟩ : FetchRecord) ∈
      [⟨0, "AMD", 1⟩, ⟨1, "AMD", 1⟩, ⟨2, "AMD", 1⟩, ⟨3, "AMD", 1⟩,
       ⟨4, "AMD", 1⟩, ⟨5, "AMD", 1⟩, ⟨6, "AMD", 1⟩, ⟨7, "AMD", 1⟩,
       ⟨8, "AMD", 0⟩] :=
  ⟨by decide, by decide, by decide, by decide⟩

/-- C3 (amended): in `build_portfolio_data`, a (date, symbol) pair whose
market price is MISSING contributes no record — it is absent from that
date's breakdown and is never recorded as zero; in
`build_portfolio_history`, by contrast, such a pair with positive holdings
is recorded with value exactly `0`. -/
theorem C3_missing_price :
    (∀ (txs : List Tx) (hist : String → Option Series)
      (err : ℤ → String → Bool) (today : ℤ) (out : List Record) (d : ℤ)
      (s : String) (series : Series) (q : ℚ),
      build_portfolio_data txs hist err today = some out →
      s ≠ "BSU" → s ≠ "CS_KNIFE" → s ≠ "KRON_GLOBAL" → s ≠ "TOTAL" →
      holdingsLookup (dateHoldings txs d) s = q → 0 < q →
      hist s = some series → latestLE series d = none →
      ∀ r ∈ out, ¬(r.date = d ∧ r.instrument = s)) ∧
    (∀ (priceData : String → Series) (rate : ℚ) (ftxs : List FetchTx)
      (startD endD : ℤ) (fout : List FetchRecord) (instr sym : String)
      (shares : ℚ) (fd : ℤ),
      build_portfolio_history priceData rate ftxs startD endD = .ok fout →
      startD ≤ fd → fd ≤ endD →
      (instr, shares) ∈ fetchHoldings (fetchDetails priceData rate ftxs) fd →
      0 < shares →
      symbolMapping instr = some sym →
      get_price_on_date priceData sym fd = none →
      (⟨fd, instr, 0⟩ : FetchRecord) ∈ fout) := by
  constructor
  · intro txs hist err today out d s series q hout hs1 hs2 hs3 hs4 hq hqpos
      hhist hmiss r hr hc
    rcases hc with ⟨hrd, hrs⟩
    rcases List.mem_append.mp ((build_perm hout).mem_iff.mp hr) with h | h
    · rcases List.mem_flatMap.mp h with ⟨d', -, hrd'⟩
      have hd' : r.date = d' := (mem_recordsForDate hrd').1
      have hdd : d' = d := by rw [← hd', hrd]
      subst hdd
      exact recordsForDate_skips
        (valueFor_market_none hs1 hs2 hs3 hhist hmiss) r hrd' hrs
    · rcases mem_totalsFor.mp h with ⟨d', -, rfl⟩
      exact hs4 hrs.symm
  · intro priceData rate ftxs startD endD fout instr sym shares fd hfout
      hfd1 hfd2 hhold hshares hsym hpnone
    exact build_portfolio_history_zero_record hfout hfd1 hfd2 hhold hsym hpnone

/-- C3 (witness): both conjuncts at concrete runs — the engine output of
the C5 scenario has no `(31, AMD)` record, and the fetch output of the
counterexample scenario contains the zero-valued `(8, AMD)` record. -/
theorem C3_missing_price_witness :
    ([⟨33, "AMD", 1, 1/2⟩, ⟨33, "TOTAL", 1, 1/2⟩,
      ⟨34, "AMD", 1, 1/2⟩, ⟨34, "TOTAL", 1, 1/2⟩,
      ⟨35, "AMD", 1, 1/2⟩, ⟨35, "TOTAL", 1, 1/2⟩] : List Record).filter
        (fun r => decide (r.date = 31) && decide (r.instrument = "AMD")) = [] ∧
    (⟨8, "AMD", 0⟩ : FetchRecord) ∈
      [⟨0, "AMD", 1⟩, ⟨1, "AMD", 1⟩, ⟨2, "AMD", 1⟩, ⟨3, "AMD", 1⟩,
       ⟨4, "AMD", 1⟩, ⟨5, "AMD", 1⟩, ⟨6, "AMD", 1⟩, ⟨7, "AMD", 1⟩,
       ⟨8, "AMD", 0⟩] := by
  constructor
  · have h := C3_missing_price.1 [⟨31, "AMD", 1, 0, "USD"⟩]
      (fun s => if s = "AMD" then some [(33, 50)]
                else if s = "USDNOK" then some [(0, 10)] else none)
      (fun _ _ => false) 35
      [⟨33, "AMD", 1, 1/2⟩, ⟨33, "TOTAL", 1, 1/2⟩,
       ⟨34, "AMD", 1, 1/2⟩, ⟨34, "TOTAL", 1, 1/2⟩,
       ⟨35, "AMD", 1, 1/2⟩, ⟨35, "TOTAL", 1, 1/2⟩] 31 "AMD" [(33, 50)] 1
      (by decide) (by decide) (by decide) (by decide) (by decide)
      (by decide) (by decide) (by decide) (by decide)
    rw [List.filter_eq_nil_iff]
    intro r hr
    have := h r hr
    simp only [Bool.and_eq_true, decide_eq_true_eq]
    intro hc
    exact this ⟨hc.1, hc.2⟩
  · exact C3_missing_price.2 (fun s => if s = "AMD" then [(0, 100)] else []) 10
      [⟨0, "AMD", 1000, "n"⟩] 0 8
      [⟨0, "AMD", 1⟩, ⟨1, "AMD", 1⟩, ⟨2, "AMD", 1⟩, ⟨3, "AMD", 1⟩,
       ⟨4, "AMD", 1⟩, ⟨5, "AMD", 1⟩, ⟨6, "AMD", 1⟩, ⟨7, "AMD", 1⟩,
       ⟨8, "AMD", 0⟩] "AMD" "AMD" 1 8
      (by decide) (by decide) (by decide) (by decide) (by decide)
      (by decide) (by decide)

/-! Claim C6. -/

theorem filterMap_filter_congr {α β : Type} (p : β → Bool) (g g' : α → Option β)
    (l : List α)
    (h : ∀ a ∈ l, ((g a).toList).filter p = ((g' a).toList).filter p) :
    (l.filterMap g).filter p = (l.filterMap g').filter p := by
  induction l with
  | nil => rfl
  | cons a t ih =>
    have ha := h a (List.mem_cons_self a t)
    have iht := ih (fun x hx => h x (List.mem_cons_of_mem a hx))
    rw [List.filterMap_cons, List.filterMap_cons]
    cases hga : g a with
    | none =>
      cases hg'a : g' a with
      | none => exact iht
      | some b' =>
        rw [hga, hg'a] at ha
        simp only [Option.toList_none, Option.toList_some, List.filter_nil] at ha
        rw [List.filter_cons] at ha
        by_cases hpb : p b' = true
        · rw [if_pos hpb] at ha
          exact absurd ha (by simp)
        · rw [List.filter_cons, if_neg hpb]
          exact iht
    | some b =>
      cases hg'a : g' a with
      | none =>
        rw [hga, hg'a] at ha
        simp only [Option.toList_none, Option.toList_some, List.filter_nil] at ha
        rw [List.filter_cons] at ha
        by_cases hpb : p b = true
        · rw [if_pos hpb] at ha
          exact absurd ha (by simp)
        · rw [List.filter_cons, if_neg hpb]
          exact iht
      | some b' =>
        rw [hga, hg'a] at ha
        simp only [Option.toList_some] at ha
        rw [List.filter_cons, List.filter_cons] at ha ⊢
        by_cases hpb : p b = true
        · rw [if_pos hpb] at ha ⊢
          by_cases hpb' : p b' = true
          · rw [if_pos hpb'] at ha ⊢
            have hbb : b = b' := by
              injection ha
            rw [hbb, iht]
          · rw [if_neg hpb'] at ha
            exact absurd ha (by simp)
        · rw [if_neg hpb] at ha ⊢
          by_cases hpb' : p b' = true
          · rw [if_pos hpb'] at ha
            exact absurd ha.symm (by simp)
          · rw [if_neg hpb'] at ha ⊢
            exact iht

theorem valueFor_congr {hist : String → Option Series}
    {err err' : ℤ → String → Bool} {d : ℤ} {s : String}
    (h : err d s = err' d s) (q : ℚ) :
    valueFor hist err d s q = valueFor hist err' d s q := by
  unfold valueFor
  rw [h]

theorem valueFor_err_none {hist : String → Option Series}
    {err : ℤ → String → Bool} {d : ℤ} {s : String}
    (hs1 : s ≠ "BSU") (hs2 : s ≠ "CS_KNIFE") (hs3 : s ≠ "KRON_GLOBAL")
    (herr : err d s = true) (q : ℚ) : valueFor hist err d s q = none := by
  unfold valueFor
  rw [if_neg hs1, if_neg hs2, if_neg hs3]
  cases hh : hist s with
  | none => simp
  | some series => simp [herr]

theorem mapM_ok_of_pointwise {α β : Type} {f : α → Except Unit β} {g : α → β}
    {xs : List α} (h : ∀ x ∈ xs, f x = .ok (g x)) :
    xs.mapM f = .ok (xs.map g) := by
  induction xs with
  | nil => rfl
  | cons a t ih =>
    rw [List.mapM_cons, h a (List.mem_cons_self a t),
      ih (fun x hx => h x (List.mem_cons_of_mem a hx))]
    rfl

/-- C6 (counterexample): the claim fails on both engines — on an empty
ledger, `build_portfolio_data` errors (`min([])` raises `ValueError`)
instead of returning an empty series; and in `build_portfolio_history`, a
valuation error for a single (symbol, date) point (the `KeyError` from
`config["appreciation_rate"]`, a key `CUSTOM_ASSETS` does not define)
aborts the whole build instead of being contained. -/
theorem C6_counterexample :
    build_portfolio_data [] (fun _ => none) (fun _ _ => false) 3 = none ∧
    build_portfolio_history (fun _ => []) 10
      [⟨0, "Kron Indeks Global", 1000, "x"⟩] 0 2 = Except.error () :=
  ⟨by decide, by decide⟩

/-- C6 (amended): an error raised inside the per-point market lookup of
`build_portfolio_data` is caught and acts as MISSING for that single
(date, symbol) point only — away from the erroring point the emitted rows
are identical, the erroring market-priced point contributes no row, and
the build always completes for a non-empty ledger; `build_portfolio_history`
yields an empty series on an empty ledger, but `build_portfolio_data`
errors on an empty ledger, and an uncaught custom-asset valuation error
aborts `build_portfolio_history` (see the counterexample). -/
theorem C6_error_containment :
    (∀ (txs : List Tx) (hist : String → Option Series)
      (err err' : ℤ → String → Bool) (d₀ : ℤ) (s₀ : String),
      (∀ (d : ℤ) (s : String), ¬(d = d₀ ∧ s = s₀) → err d s = err' d s) →
      ∀ d : ℤ,
        (recordsForDate txs hist err d).filter
          (fun r => !(decide (r.date = d₀) && decide (r.instrument = s₀))) =
        (recordsForDate txs hist err' d).filter
          (fun r => !(decide (r.date = d₀) && decide (r.instrument = s₀)))) ∧
    (∀ (txs : List Tx) (hist : String → Option Series)
      (err : ℤ → String → Bool) (d₀ : ℤ) (s₀ : String),
      s₀ ≠ "BSU" → s₀ ≠ "CS_KNIFE" → s₀ ≠ "KRON_GLOBAL" →
      err d₀ s₀ = true →
      ∀ r ∈ recordsForDate txs hist err d₀, r.instrument ≠ s₀) ∧
    (∀ (txs : List Tx) (hist : String → Option Series)
      (err : ℤ → String → Bool) (today : ℤ),
      txs ≠ [] → (build_portfolio_data txs hist err today).isSome) ∧
    (∀ (priceData : String → Series) (rate : ℚ) (startD endD : ℤ),
      build_portfolio_history priceData rate [] startD endD = Except.ok []) := by
  refine ⟨?_, ?_, ?_, ?_⟩
  · intro txs hist err err' d₀ s₀ herr d
    unfold recordsForDate
    apply filterMap_filter_congr
    intro e _
    by_cases hds : d = d₀ ∧ e.1 = s₀
    · rcases hds with ⟨rfl, hes⟩
      have hall : ∀ (er : ℤ → String → Bool) (b : Record),
          b ∈ ((if e.2 ≤ 0 then none
                else (valueFor hist er d e.1 e.2).map
                  (fun v => (⟨d, e.1, e.2, v / 1000⟩ : Record))) : Option Record).toList →
          (!(decide (b.date = d) && decide (b.instrument = s₀))) = false := by
        intro er b hb
        by_cases hq : e.2 ≤ 0
        · rw [if_pos hq] at hb
          exact absurd hb (by simp)
        · rw [if_neg hq] at hb
          cases hv : (valueFor hist er d e.1 e.2) with
          | none =>
            rw [hv] at hb
            exact absurd hb (by simp)
          | some v =>
            rw [hv] at hb
            simp only [Option.map_some', Option.toList_some,
              List.mem_singleton] at hb
            subst hb
            simp [hes]
      rw [List.filter_eq_nil_iff.mpr (fun b hb => by simp [hall err b hb]),
        List.filter_eq_nil_iff.mpr (fun b hb => by simp [hall err' b hb])]
    · have he : err d e.1 = err' d e.1 := herr d e.1 (by
        intro hc
        exact hds ⟨hc.1, hc.2⟩)
      rw [valueFor_congr he]
  · intro txs hist err d₀ s₀ hs1 hs2 hs3 herr
    exact recordsForDate_skips (valueFor_err_none hs1 hs2 hs3 herr)
  · intro txs hist err today hne
    cases txs with
    | nil => exact absurd rfl hne
    | cons t ts =>
      unfold build_portfolio_data
      by_cases h : (engineRecords (t :: ts) hist err today).isEmpty
      · rw [if_pos h]
        rfl
      · rw [if_neg h]
        rfl
  · intro priceData rate startD endD
    unfold build_portfolio_history
    have hpt : ∀ d ∈ dateRange startD endD,
        recordsForDateFetch priceData rate
          (fetchDetails priceData rate []) d = .ok [] := by
      intro d _
      rfl
    rw [mapM_ok_of_pointwise hpt]
    have : ((dateRange startD endD).map
        (fun _ => ([] : List FetchRecord))).flatten = [] := by
      rw [List.flatten_eq_nil_iff]
      intro l hl
      rcases List.mem_map.mp hl with ⟨-, -, rfl⟩
      rfl
    simp [Except.map, this]

/-- C6 (witness): the non-interference conjunct at a concrete run — an
error oracle raising exactly at (day 33, AMD) produces the same rows as
the error-free run once the (33, AMD) point is set aside. -/
theorem C6_error_containment_witness :
    (recordsForDate [⟨31, "AMD", 1, 0, "USD"⟩]
        (fun s => if s = "AMD" then some [(33, 50)]
                  else if s = "USDNOK" then some [(0, 10)] else none)
        (fun d s => decide (d = 33) && decide (s = "AMD")) 33).filter
      (fun r => !(decide (r.date = 33) && decide (r.instrument = "AMD"))) =
    (recordsForDate [⟨31, "AMD", 1, 0, "USD"⟩]
        (fun s => if s = "AMD" then some [(33, 50)]
                  else if s = "USDNOK" then some [(0, 10)] else none)
        (fun _ _ => false) 33).filter
      (fun r => !(decide (r.date = 33) && decide (r.instrument = "AMD"))) :=
  C6_error_containment.1 [⟨31, "AMD", 1, 0, "USD"⟩]
    (fun s => if s = "AMD" then some [(33, 50)]
              else if s = "USDNOK" then some [(0, 10)] else none)
    (fun d s => decide (d = 33) && decide (s = "AMD")) (fun _ _ => false)
    33 "AMD"
    (fun d s h => by
      have : ¬(d = 33 ∧ s = "AMD") := h
      by_cases hd : d = 33
      · by_cases hs : s = "AMD"
        · exact absurd ⟨hd, hs⟩ this
        · simp [hs]
      · simp [hd])
    33

/-! Claim C9. -/

theorem le_foldl_max (l : List ℤ) (a : ℤ) : ∀ x ∈ a :: l, x ≤ l.foldl max a := by
  induction l generalizing a with
  | nil =>
    intro x hx
    rw [List.mem_singleton] at hx
    subst hx
    exact le_refl x
  | cons b t ih =>
    intro x hx
    rw [List.foldl_cons]
    rcases List.mem_cons.mp hx with rfl | hx'
    · exact le_trans (le_max_left x b) (ih (max x b) _ (List.mem_cons_self _ _))
    · rcases List.mem_cons.mp hx' with rfl | hx''
      · exact le_trans (le_max_right a x) (ih (max a x) _ (List.mem_cons_self _ _))
      · exact ih (max a b) x (List.mem_cons_of_mem _ hx'')

theorem foldl_max_mem (l : List ℤ) (a : ℤ) : l.foldl max a ∈ a :: l := by
  induction l generalizing a with
  | nil => simp
  | cons b t ih =>
    rw [List.foldl_cons]
    rcases List.mem_cons.mp (ih (max a b)) with h | h
    · rw [h]
      rcases max_choice a b with h' | h' <;> rw [h'] <;> simp
    · simp [List.mem_cons_of_mem, h]

/-- C9: for every non-empty table, the latest snapshot is exactly the
records dated at the maximum date of the table (as a permutation), sorted
descending by value, and the allocation view built from it excludes the
TOTAL record. -/
theorem C9_latest_snapshot (df : List Record) (hne : df ≠ []) :
    (get_latest_snapshot df).Perm
      (df.filter (fun r => decide (r.date = latestDate df))) ∧
    List.Sorted valueDescLE (get_latest_snapshot df) ∧
    (∀ r ∈ df, r.date ≤ latestDate df) ∧
    (∃ r ∈ df, r.date = latestDate df) ∧
    allocation_data df =
      (get_latest_snapshot df).filter (fun r => decide (r.instrument ≠ "TOTAL")) ∧
    (∀ r ∈ allocation_data df, r.instrument ≠ "TOTAL") := by
  have hIsE : ¬df.isEmpty = true := fun h => hne (List.isEmpty_iff.mp h)
  have hsnap : get_latest_snapshot df =
      (df.filter (fun r => decide (r.date = latestDate df))).insertionSort
        valueDescLE := by
    unfold get_latest_snapshot
    rw [if_neg hIsE]
  refine ⟨?_, ?_, ?_, ?_, rfl, ?_⟩
  · rw [hsnap]
    exact List.perm_insertionSort valueDescLE _
  · rw [hsnap]
    exact List.sorted_insertionSort valueDescLE _
  · intro r hr
    cases df with
    | nil => exact absurd hr (List.not_mem_nil r)
    | cons r₀ rs =>
      unfold latestDate
      rcases List.mem_cons.mp hr with rfl | hr'
      · exact le_foldl_max _ _ _ (List.mem_cons_self _ _)
      · exact le_foldl_max _ _ _
          (List.mem_cons_of_mem _ (List.mem_map_of_mem Record.date hr'))
  · cases df with
    | nil => exact absurd rfl hne
    | cons r₀ rs =>
      rcases List.mem_cons.mp (foldl_max_mem (rs.map Record.date) r₀.date) with h | h
      · exact ⟨r₀, List.mem_cons_self _ _, h.symm⟩
      · rcases List.mem_map.mp h with ⟨r', hr', hr'd⟩
        exact ⟨r', List.mem_cons_of_mem _ hr', hr'd⟩
  · intro r hr
    rcases List.mem_filter.mp hr with ⟨-, hrT⟩
    simpa using hrT

/-- C9 (witness): the theorem at a concrete three-record table whose
maximum date is 2. -/
theorem C9_latest_snapshot_witness :
    (get_latest_snapshot [⟨1, "A", 1, 5⟩, ⟨2, "B", 1, 3⟩, ⟨2, "TOTAL", 1, 3⟩]).Perm
      ([⟨1, "A", 1, 5⟩, ⟨2, "B", 1, 3⟩, ⟨2, "TOTAL", 1, 3⟩].filter
        (fun r => decide (r.date =
          latestDate [⟨1, "A", 1, 5⟩, ⟨2, "B", 1, 3⟩, ⟨2, "TOTAL", 1, 3⟩]))) ∧
    List.Sorted valueDescLE
      (get_latest_snapshot [⟨1, "A", 1, 5⟩, ⟨2, "B", 1, 3⟩, ⟨2, "TOTAL", 1, 3⟩]) ∧
    allocation_data [⟨1, "A", 1, 5⟩, ⟨2, "B", 1, 3⟩, ⟨2, "TOTAL", 1, 3⟩] =
      (get_latest_snapshot [⟨1, "A", 1, 5⟩, ⟨2, "B", 1, 3⟩, ⟨2, "TOTAL", 1, 3⟩]).filter
        (fun r => decide (r.instrument ≠ "TOTAL")) :=
  ⟨(C9_latest_snapshot [⟨1, "A", 1, 5⟩, ⟨2, "B", 1, 3⟩, ⟨2, "TOTAL", 1, 3⟩]
      (by decide)).1,
   (C9_latest_snapshot [⟨1, "A", 1, 5⟩, ⟨2, "B", 1, 3⟩, ⟨2, "TOTAL", 1, 3⟩]
      (by decide)).2.1,
   (C9_latest_snapshot [⟨1, "A", 1, 5⟩, ⟨2, "B", 1, 3⟩, ⟨2, "TOTAL", 1, 3⟩]
      (by decide)).2.2.2.2.1⟩

/-! Claim C8. -/

instance : IsAntisymm (ℤ × ℚ) (fun a b => a.1 < b.1) :=
  ⟨fun _ _ h1 h2 => absurd (lt_trans h1 h2) (lt_irrefl _)⟩

theorem summaryTotalsOverTime_eq (df : List Record) :
    summaryTotalsOverTime df = portfolioOverTime df := by
  unfold summaryTotalsOverTime get_portfolio_summary
  by_cases h : df.isEmpty
  · rw [if_pos h]
    have hdf : df = [] := List.isEmpty_iff.mp h
    subst hdf
    rfl
  · rw [if_neg h]
    by_cases h2 : (portfolioOverTime df).length < 2
    · rw [if_pos h2]
    · rw [if_neg h2]

/-- C8 (counterexample): the table `[(1, TOTAL, 1, 0)]` satisfies the
claim's invariant — its only date carries exactly one TOTAL record whose
value (0) is the sum of that date's (zero) non-TOTAL records — yet
`totals_over_time`, computed by summing the non-TOTAL rows per date, is
empty, while the TOTAL-only sub-series contains `(1, 0)`: a date whose
only record is the TOTAL record is dropped by the computation. -/
theorem C8_counterexample :
    ([⟨1, "TOTAL", 1, 0⟩] : List Record).all (fun r => decide (r.date = 1)) = true ∧
    (([⟨1, "TOTAL", 1, 0⟩] : List Record).filter
      (fun r => decide (r.date = 1) && decide (r.instrument = "TOTAL"))).length = 1 ∧
    ([⟨1, "TOTAL", 1, 0⟩] : List Record).all (fun r => decide (r.value =
      ((([⟨1, "TOTAL", 1, 0⟩] : List Record).filter
        (fun r => decide (r.date = 1) && decide (r.instrument ≠ "TOTAL"))).map
        Record.value).sum)) = true ∧
    summaryTotalsOverTime [⟨1, "TOTAL", 1, 0⟩] = [] ∧
    totalOnlySubseries [⟨1, "TOTAL", 1, 0⟩] = [(1, 0)] :=
  ⟨by decide, by decide, by decide, by decide, by decide⟩

theorem total_dates_nodup (df : List Record)
    (hInv : ∀ d : ℤ, (∃ r ∈ df, r.date = d) →
      (df.filter (fun r => decide (r.date = d) &&
        decide (r.instrument = "TOTAL"))).length = 1) :
    ((df.filter (fun r => decide (r.instrument = "TOTAL"))).map Record.date).Nodup := by
  rw [List.nodup_iff_count_le_one]
  intro d
  rw [List.count_eq_countP, List.countP_map, List.countP_eq_length_filter,
    List.filter_filter]
  have hcongr : ∀ r ∈ df,
      (((fun x => x == d) ∘ Record.date) r && decide (r.instrument = "TOTAL")) =
        (decide (r.date = d) && decide (r.instrument = "TOTAL")) := by
    intro r _
    by_cases h : r.date = d <;> simp [Function.comp, h]
  rw [List.filter_congr hcongr]
  by_cases hd : ∃ r ∈ df, r.date = d
  · rw [hInv d hd]
  · rw [List.filter_eq_nil_iff.mpr ?_]
    · simp
    · intro r hr
      simp only [Bool.and_eq_true, decide_eq_true_eq, not_and]
      intro hrd
      exact absurd ⟨r, hr, hrd⟩ hd

/-- C8 (amended): for every series in which each present date carries
exactly one TOTAL record whose value is the sum of that date's non-TOTAL
records, the `totals_over_time` sub-series computed by the summary (by
summing the non-TOTAL rows per date) equals the TOTAL-only sub-series of
the input sorted by date and restricted to the dates that have at least
one non-TOTAL record; a date whose only record is the TOTAL record is
absent from `totals_over_time` although present in the TOTAL-only
sub-series. -/
theorem C8_totals_refinement (df : List Record)
    (hInv : ∀ d : ℤ, (∃ r ∈ df, r.date = d) →
      ((df.filter (fun r => decide (r.date = d) &&
        decide (r.instrument = "TOTAL"))).length = 1 ∧
       ∀ r ∈ df, r.date = d → r.instrument = "TOTAL" →
         r.value = ((df.filter (fun r => decide (r.date = d) &&
           decide (r.instrument ≠ "TOTAL"))).map Record.value).sum)) :
    summaryTotalsOverTime df =
      (totalOnlySubseries df).filter
        (fun e => df.any (fun r => decide (r.date = e.1) &&
          decide (r.instrument ≠ "TOTAL"))) := by
  rw [summaryTotalsOverTime_eq]
  have hSd : ∀ d : ℤ,
      (((nonTotalRows df).filter (fun r => decide (r.date = d))).map Record.value).sum =
      ((df.filter (fun r => decide (r.date = d) &&
        decide (r.instrument ≠ "TOTAL"))).map Record.value).sum := by
    intro d
    unfold nonTotalRows
    rw [List.filter_filter]
  have hmemD : ∀ d : ℤ, d ∈ sortedUniqueDates (nonTotalRows df) ↔
      ∃ r ∈ df, r.date = d ∧ r.instrument ≠ "TOTAL" := by
    intro d
    unfold sortedUniqueDates nonTotalRows
    rw [List.mem_insertionSort, List.mem_dedup, List.mem_map]
    constructor
    · rintro ⟨r, hr, rfl⟩
      rcases List.mem_filter.mp hr with ⟨hrdf, hrT⟩
      exact ⟨r, hrdf, rfl, by simpa using hrT⟩
    · rintro ⟨r, hrdf, rfl, hrT⟩
      exact ⟨r, List.mem_filter.mpr ⟨hrdf, by simpa using hrT⟩, rfl⟩
  have hmemL : ∀ x : ℤ × ℚ, x ∈ portfolioOverTime df ↔
      ((∃ r ∈ df, r.date = x.1 ∧ r.instrument ≠ "TOTAL") ∧
       x.2 = ((df.filter (fun r => decide (r.date = x.1) &&
         decide (r.instrument ≠ "TOTAL"))).map Record.value).sum) := by
    intro x
    unfold portfolioOverTime
    rw [List.mem_map]
    constructor
    · rintro ⟨d, hd, rfl⟩
      exact ⟨(hmemD d).mp hd, hSd d⟩
    · rintro ⟨⟨r, hr, hrd, hrT⟩, hx2⟩
      refine ⟨x.1, (hmemD x.1).mpr ⟨r, hr, hrd, hrT⟩, ?_⟩
      have hv : (((nonTotalRows df).filter
          (fun r => decide (r.date = x.1))).map Record.value).sum = x.2 :=
        (hSd x.1).trans hx2.symm
      rw [hv]
  have hmemR : ∀ x : ℤ × ℚ,
      (x ∈ (totalOnlySubseries df).filter
        (fun e => df.any (fun r => decide (r.date = e.1) &&
          decide (r.instrument ≠ "TOTAL")))) ↔
      ((∃ rt ∈ df, rt.instrument = "TOTAL" ∧ rt.date = x.1 ∧ rt.value = x.2) ∧
       ∃ r ∈ df, r.date = x.1 ∧ r.instrument ≠ "TOTAL") := by
    intro x
    rw [List.mem_filter]
    unfold totalOnlySubseries
    rw [List.mem_map]
    constructor
    · rintro ⟨⟨rt, hrt, rfl⟩, hany⟩
      rw [List.mem_insertionSort, List.mem_filter] at hrt
      rcases hrt with ⟨hrtdf, hrtT⟩
      refine ⟨⟨rt, hrtdf, by simpa using hrtT, rfl, rfl⟩, ?_⟩
      rcases List.any_eq_true.mp hany with ⟨r, hr, hb⟩
      rcases Bool.and_eq_true_iff.mp hb with ⟨h1, h2⟩
      simp only [decide_eq_true_eq] at h1 h2
      exact ⟨r, hr, h1, h2⟩
    · rintro ⟨⟨rt, hrtdf, hrtT, hrtd, hrtv⟩, ⟨r, hr, hrd, hrT⟩⟩
      refine ⟨⟨rt, ?_, ?_⟩, ?_⟩
      · rw [List.mem_insertionSort, List.mem_filter]
        exact ⟨hrtdf, by simpa using hrtT⟩
      · rw [hrtd, hrtv]
      · exact List.any_eq_true.mpr ⟨r, hr, by simp [hrd, hrT]⟩
  have hbridge : ∀ x : ℤ × ℚ, x ∈ portfolioOverTime df ↔
      x ∈ (totalOnlySubseries df).filter
        (fun e => df.any (fun r => decide (r.date = e.1) &&
          decide (r.instrument ≠ "TOTAL"))) := by
    intro x
    rw [hmemL, hmemR]
    constructor
    · rintro ⟨⟨r, hr, hrd, hrT⟩, hx2⟩
      rcases hInv x.1 ⟨r, hr, hrd⟩ with ⟨hlen, hval⟩
      rcases List.length_eq_one.mp hlen with ⟨rt, hrt⟩
      have hrtmem : rt ∈ df.filter (fun r => decide (r.date = x.1) &&
          decide (r.instrument = "TOTAL")) := by
        rw [hrt]
        exact List.mem_singleton_self rt
      rcases List.mem_filter.mp hrtmem with ⟨hrtdf, hb⟩
      rcases Bool.and_eq_true_iff.mp hb with ⟨h1, h2⟩
      simp only [decide_eq_true_eq] at h1 h2
      have hrtval := hval rt hrtdf h1 h2
      exact ⟨⟨rt, hrtdf, h2, h1, by rw [hrtval, ← hx2]⟩, ⟨r, hr, hrd, hrT⟩⟩
    · rintro ⟨⟨rt, hrtdf, hrtT, hrtd, hrtv⟩, ⟨r, hr, hrd, hrT⟩⟩
      rcases hInv x.1 ⟨rt, hrtdf, hrtd⟩ with ⟨-, hval⟩
      have hrtval := hval rt hrtdf hrtd hrtT
      exact ⟨⟨r, hr, hrd, hrT⟩, by rw [← hrtv, hrtval]⟩
  have hD_sorted : List.Pairwise (fun a b : ℤ => a < b)
      (sortedUniqueDates (nonTotalRows df)) := by
    have h1 : List.Sorted (fun a b : ℤ => a ≤ b)
        (sortedUniqueDates (nonTotalRows df)) :=
      List.sorted_insertionSort _ _
    have h2 : (sortedUniqueDates (nonTotalRows df)).Nodup :=
      (List.nodup_dedup _).perm
        (List.perm_insertionSort (fun a b : ℤ => a ≤ b) _).symm
    exact h1.lt_of_le h2
  have hA_sorted : List.Pairwise (fun a b : ℤ × ℚ => a.1 < b.1)
      (portfolioOverTime df) := by
    unfold portfolioOverTime
    rw [List.pairwise_map]
    exact hD_sorted
  have hsortT_lt : List.Pairwise (fun a b : Record => a.date < b.date)
      ((df.filter (fun r => decide (r.instrument = "TOTAL"))).insertionSort dateLE) := by
    have hle : List.Pairwise dateLE
        ((df.filter (fun r => decide (r.instrument = "TOTAL"))).insertionSort dateLE) :=
      List.sorted_insertionSort dateLE _
    have hnd : (((df.filter (fun r => decide (r.instrument = "TOTAL"))).insertionSort
        dateLE).map Record.date).Nodup :=
      (total_dates_nodup df (fun d hd => (hInv d hd).1)).perm
        ((List.perm_insertionSort dateLE _).map Record.date).symm
    have hne : List.Pairwise (fun a b : Record => a.date ≠ b.date)
        ((df.filter (fun r => decide (r.instrument = "TOTAL"))).insertionSort dateLE) :=
      List.pairwise_map.mp hnd
    exact (hle.and hne).imp (fun h => lt_of_le_of_ne h.1 h.2)
  have hB_sorted : List.Pairwise (fun a b : ℤ × ℚ => a.1 < b.1)
      ((totalOnlySubseries df).filter
        (fun e => df.any (fun r => decide (r.date = e.1) &&
          decide (r.instrument ≠ "TOTAL")))) := by
    apply List.Pairwise.sublist (List.filter_sublist _)
    unfold totalOnlySubseries
    rw [List.pairwise_map]
    exact hsortT_lt
  have hA_nodup : (portfolioOverTime df).Nodup :=
    hA_sorted.imp (fun h heq => absurd (heq ▸ h) (lt_irrefl _))
  have hB_nodup : ((totalOnlySubseries df).filter
      (fun e => df.any (fun r => decide (r.date = e.1) &&
        decide (r.instrument ≠ "TOTAL")))).Nodup :=
    hB_sorted.imp (fun h heq => absurd (heq ▸ h) (lt_irrefl _))
  have hperm : (portfolioOverTime df).Perm
      ((totalOnlySubseries df).filter
        (fun e => df.any (fun r => decide (r.date = e.1) &&
          decide (r.instrument ≠ "TOTAL")))) :=
    List.perm_of_nodup_nodup_toFinset_eq hA_nodup hB_nodup
      (Finset.ext (fun x => by
        rw [List.mem_toFinset, List.mem_toFinset]
        exact hbridge x))
  exact List.eq_of_perm_of_sorted hperm hA_sorted hB_sorted

/-- C8 (witness): the amended theorem at a concrete two-date table in
which date 1 has an instrument record and date 2 carries only its TOTAL
record of value 0 — the computed totals keep date 1 and drop date 2. -/
theorem C8_totals_refinement_witness :
    summaryTotalsOverTime
        [⟨1, "A", 1, 5⟩, ⟨1, "TOTAL", 1, 5⟩, ⟨2, "TOTAL", 1, 0⟩] =
      (totalOnlySubseries
        [⟨1, "A", 1, 5⟩, ⟨1, "TOTAL", 1, 5⟩, ⟨2, "TOTAL", 1, 0⟩]).filter
        (fun e => ([⟨1, "A", 1, 5⟩, ⟨1, "TOTAL", 1, 5⟩, ⟨2, "TOTAL", 1, 0⟩] :
          List Record).any (fun r => decide (r.date = e.1) &&
            decide (r.instrument ≠ "TOTAL"))) :=
  C8_totals_refinement [⟨1, "A", 1, 5⟩, ⟨1, "TOTAL", 1, 5⟩, ⟨2, "TOTAL", 1, 0⟩]
    (fun d hd => by
      rcases hd with ⟨r, hr, hrd⟩
      have hd12 : d = 1 ∨ d = 2 := by
        rcases List.mem_cons.mp hr with rfl | hr'
        · exact Or.inl hrd.symm
        · rcases List.mem_cons.mp hr' with rfl | hr''
          · exact Or.inl hrd.symm
          · rcases List.mem_cons.mp hr'' with rfl | hr'''
            · exact Or.inr hrd.symm
            · exact absurd hr''' (List.not_mem_nil r)
      rcases hd12 with rfl | rfl
      · exact ⟨by decide, by decide⟩
      · exact ⟨by decide, by decide⟩)

end Portfolio
